import Mathlib

/-!
Shallow embedding of `src/lib/chef-lab-client/app/services/progress.service.ts`
(the progress computation and cascade engine of the chef-web-docs lab client).

Modelling conventions:
* JavaScript objects are association lists of `String` keys preserving
  insertion order (`alGet` is property read, `alSet` is property write that
  keeps an existing key in place and appends a new one).
* JavaScript `undefined` is `Option.none`; truthiness of an optional string is
  `optTruthy` (absent and the empty string are falsy).
* ISO-8601 timestamps are `String`s compared with the lexicographic order on
  `String`, exactly as the source compares them with `<` and `>`.
* Numbers appearing in time arithmetic are rationals (`ℚ`), `Math.round` is
  `jsRound`, and the `Math.min(100, Math.max(0, _))` clamp is `jsClamp`.
* The unbounded `while` loops and the recursive descent take an explicit fuel
  argument; `RunRes.fuelOut` marks fuel exhaustion (the JS loop not having
  finished), and `RunRes.typeError` marks a thrown `TypeError` from
  dereferencing an `undefined` lookup result.
-/

namespace Chef

/-- Association-list lookup, modelling the JS property read `obj[k]`. -/
def alGet {α : Type} : List (String × α) → String → Option α
  | [], _ => none
  | (k, v) :: rest, key => if k = key then some v else alGet rest key

/-- Association-list write, modelling JS property assignment: an existing key
keeps its position, a new key is appended (JS insertion order). -/
def alSet {α : Type} : List (String × α) → String → α → List (String × α)
  | [], key, v => [(key, v)]
  | (k, w) :: rest, key, v =>
    if k = key then (k, v) :: rest else (k, w) :: alSet rest key v

/-- Truthiness of an optional JS string: `undefined` and `''` are falsy. -/
def optTruthy : Option String → Bool
  | none => false
  | some s => decide (s ≠ "")

/-- First-some choice, modelling a field of `Object.assign(target, source)`:
the source field wins when present. -/
def optOr (a b : Option String) : Option String :=
  match a with
  | some v => some v
  | none => b

/-- A LearningRecord (the `Learning` interface plus the achievement fields the
code actually stores). Absent fields are `none`. -/
structure Learning where
  started_at : Option String := none
  completed_at : Option String := none
  achievement_type : Option String := none
  earned_at : Option String := none
deriving Repr, DecidableEq

/-- Object.assign of an update fragment onto a record (lines 301-303): a field
present in `fv` overwrites, an absent field keeps the old value. -/
def mergeRecord (old fv : Learning) : Learning :=
  { started_at := optOr fv.started_at old.started_at
    completed_at := optOr fv.completed_at old.completed_at
    achievement_type := optOr fv.achievement_type old.achievement_type
    earned_at := optOr fv.earned_at old.earned_at }

/-- The in-memory ProgressState: learning-type key to (content id to record). -/
abbrev ProgressState := List (String × List (String × Learning))

/-- getUserProgressData with a learning type and a page id and no wildcard
(lines 337-356): `data[learningType] || {}` then `data[pageId] || {}`. -/
def getRecord (st : ProgressState) (lt id : String) : Learning :=
  match alGet st lt with
  | none => {}
  | some m =>
    match alGet m id with
    | none => {}
    | some r => r

/-- Whether the first character sequence is an initial run of the second. -/
def charsLead : List Char → List Char → Bool
  | [], _ => true
  | _ :: _, [] => false
  | c :: cs, d :: ds => if c = d then charsLead cs ds else false

/-- The wildcard RegExp of line 345: the key is `pageId` itself or
`pageId/<suffix>` with a non-empty suffix. -/
def wildcardMatch (pageId key : String) : Bool :=
  decide (key = pageId) ||
    (charsLead (pageId.data ++ ['/']) key.data && decide (pageId.length + 1 < key.length))

/-- getUserProgressData with `wildcard = true` (lines 342-349): all records of
the learning type whose key matches, in stored key order. -/
def getRecordsW (st : ProgressState) (lt pageId : String) : List (String × Learning) :=
  (match alGet st lt with
   | none => []
   | some m => m).filter (fun kv => wildcardMatch pageId kv.1)

/-- A node of `window.dataTree.modules` as the service reads it. -/
structure ContentNode where
  parent : Option String := none
  children : Option (List String) := none
  is_fork : Bool := false
  minutes : Option (ℚ × ℚ) := none
  remaining : Option (ℚ × ℚ) := none
deriving Repr, DecidableEq

abbrev ModuleData := List (String × ContentNode)

/-- A node of `window.dataTree.tracks` as the service reads it. -/
structure Track where
  modules : Option (List String) := none
deriving Repr, DecidableEq

abbrev TrackData := List (String × Track)

/-- Result of running a piece of the service: a value, a thrown `TypeError`
(dereferencing `undefined`), or fuel exhaustion of an unbounded loop. -/
inductive RunRes (α : Type) where
  | ok (a : α)
  | typeError
  | fuelOut
deriving Repr, DecidableEq

def RunRes.bind {α β : Type} : RunRes α → (α → RunRes β) → RunRes β
  | .ok a, f => f a
  | .typeError, _ => .typeError
  | .fuelOut, _ => .fuelOut

/-- The while loop of getModuleRoot (lines 262-265): ascend parent links until
the parent is absent, empty, or the literal root sentinel `modules`; when the
parent names an absent node the next loop test dereferences `undefined` and
throws. -/
def gmrLoop (md : ModuleData) : Nat → String → ContentNode → RunRes String
  | 0, _, _ => .fuelOut
  | fuel + 1, pageId, node =>
    match node.parent with
    | none => .ok pageId
    | some p =>
      if p = "" then .ok pageId
      else if p = "modules" then .ok pageId
      else
        match alGet md p with
        | none => .typeError
        | some node2 => gmrLoop md fuel p node2

/-- getModuleRoot (lines 258-267); `.ok none` is the JS `undefined` return for
an unknown page id. -/
def getModuleRoot (md : ModuleData) (fuel : Nat) (pageId : String) :
    RunRes (Option String) :=
  match alGet md pageId with
  | none => .ok none
  | some node => (gmrLoop md fuel pageId node).bind (fun r => .ok (some r))

/-- getLearningType (lines 30-37); `.ok none` is the implicit `undefined`
return for the container roots and for unclassifiable identifiers. -/
def getLearningType (md : ModuleData) (td : TrackData) (fuel : Nat) (pageId : String) :
    RunRes (Option String) :=
  if pageId = "modules" ∨ pageId = "tracks" then .ok none
  else
    (getModuleRoot md fuel pageId).bind (fun moduleId =>
      if some pageId = moduleId then .ok (some "modules")
      else if optTruthy moduleId then .ok (some "units")
      else
        match alGet td pageId with
        | some _ => .ok (some "tracks")
        | none => .ok none)

/-- getChildPathIds (lines 246-256): depth-first descent listing each child
before its own descendants, in catalog child order. -/
def getChildPathIds (md : ModuleData) : Nat → String → RunRes (List String)
  | 0, _ => .fuelOut
  | fuel + 1, pageId =>
    match alGet md pageId with
    | none => .ok []
    | some node =>
      match node.children with
      | none => .ok []
      | some cs =>
        cs.foldl
          (fun acc child =>
            acc.bind (fun ids =>
              (getChildPathIds md fuel child).bind (fun sub =>
                .ok (ids ++ child :: sub))))
          (RunRes.ok [])

/-- The parent-chain while loop of getActivePathIds (lines 235-238): prepend
each ancestor until the root sentinel; `moduleData[parent].parent` on an absent
parent throws. -/
def chainAscend (md : ModuleData) : Nat → Option String → List String → RunRes (List String)
  | 0, _, _ => .fuelOut
  | fuel + 1, p, ids =>
    match p with
    | none => .ok ids
    | some q =>
      if q = "" then .ok ids
      else if q = "modules" then .ok ids
      else
        match alGet md q with
        | none => .typeError
        | some nd => chainAscend md fuel nd.parent (q :: ids)

/-- The childRoot ternary of lines 173 and 229:
`(parent && !moduleData[parent].is_fork) ? parent : activeItemId`; the
`is_fork` read is an unguarded dereference of `moduleData[parent]`. -/
def childRootOf (md : ModuleData) (activeItemId : String) (node : ContentNode) :
    RunRes String :=
  match node.parent with
  | none => .ok activeItemId
  | some p =>
    if p = "" then .ok activeItemId
    else
      match alGet md p with
      | none => .typeError
      | some pd => .ok (if pd.is_fork then activeItemId else p)

/-- getActivePathIds (lines 222-244): childRoot, then its ancestor chain
prepended, then the depth-first descendants appended. -/
def getActivePathIds (md : ModuleData) (fuel : Nat) (activeItemId : String) :
    RunRes (List String) :=
  match alGet md activeItemId with
  | none => .ok []
  | some node =>
    (childRootOf md activeItemId node).bind (fun childRoot =>
      ((match alGet md childRoot with
        | none => .ok [childRoot]
        | some crNode =>
          if optTruthy crNode.parent then chainAscend md fuel crNode.parent [childRoot]
          else .ok [childRoot] : RunRes (List String))).bind (fun ids =>
        (getChildPathIds md fuel childRoot).bind (fun subs => .ok (ids ++ subs))))

/-- The base-time while loop of getModuleProgress (lines 182-189): add each
ancestor's minutes range until the root sentinel; `parentData.minutes` on an
absent parent throws. -/
def baseAscend (md : ModuleData) : Nat → Option String → ℚ × ℚ → RunRes (ℚ × ℚ)
  | 0, _, _ => .fuelOut
  | fuel + 1, p, acc =>
    match p with
    | none => .ok acc
    | some q =>
      if q = "" then .ok acc
      else if q = "modules" then .ok acc
      else
        match alGet md q with
        | none => .typeError
        | some pd =>
          let acc2 :=
            match pd.minutes with
            | some mm => (acc.1 + mm.1, acc.2 + mm.2)
            | none => acc
          baseAscend md fuel pd.parent acc2

/-- Lexicographic code-unit comparison of character sequences, the order JS
applies to strings. -/
def charsLtB : List Char → List Char → Bool
  | [], [] => false
  | [], _ :: _ => true
  | _ :: _, [] => false
  | c :: cs, d :: ds =>
    if c.val < d.val then true
    else if d.val < c.val then false
    else charsLtB cs ds

/-- JS string comparison `a < b` (lexicographic on code units). -/
def jsLtB (a b : String) : Bool := charsLtB a.data b.data

/-- Touch time of a record, lines 142-143:
`[started_at, completed_at].sort().reverse()[0]`. The JS default sort moves
`undefined` entries to the end of the array, so the reversed head is
`undefined` as soon as either field is missing; with both fields present it is
their lexicographic maximum. -/
def touchTime (r : Learning) : Option String :=
  match r.started_at, r.completed_at with
  | some a, some b => some (if jsLtB a b then b else a)
  | _, _ => none

/-- JS relational `a > b` on possibly-undefined strings: any comparison
involving `undefined` is false. -/
def optGt : Option String → Option String → Bool
  | some a, some b => jsLtB b a
  | _, _ => false

/-- Stable insertion into a list already sorted by the comparator: the element
is placed before the first element it compares less than. -/
def insertCmp {α : Type} (cmp : α → α → Int) (x : α) : List α → List α
  | [] => [x]
  | y :: ys => if cmp x y < 0 then x :: y :: ys else y :: insertCmp cmp x ys

/-- Model of `Array.prototype.sort(cmp)` as the stable insertion sort (the
ECMAScript sort is required to be stable; for the short key arrays here this
matches the engine's insertion-sort behavior). -/
def jsSort {α : Type} (cmp : α → α → Int) (l : List α) : List α :=
  l.foldl (fun acc x => insertCmp cmp x acc) []

/-- getLastAccessed (lines 139-147): wildcard-match the records, sort the keys
by descending touch time with the source's comparator, return the head record
tagged with its id; an empty match set yields the JS `undefined`. -/
def getLastAccessed (st : ProgressState) (lt pageId : String) :
    Option (String × Learning) :=
  let data := getRecordsW st lt pageId
  let dateOf := fun (k : String) =>
    touchTime (match alGet data k with
               | some r => r
               | none => {})
  let sorted := jsSort
    (fun a b => if optGt (dateOf a) (dateOf b) then (-1 : Int) else 1)
    (data.map Prod.fst)
  let k0 :=
    match sorted with
    | [] => "undefined"
    | k :: _ => k
  match alGet data k0 with
  | none => none
  | some r => some (k0, r)

/-- JS coercion of a possibly-undefined string used as a property key:
`obj[undefined]` reads the key `'undefined'`. -/
def jsKey : Option String → String
  | some s => s
  | none => "undefined"

/-- Math.round for the values arising here: floor of the value plus one half. -/
def jsRound (q : ℚ) : ℤ := Rat.floor (q + 1 / 2)

/-- The clamp `Math.min(100, Math.max(0, r))` of lines 216 and 218. -/
def jsClamp (r : ℤ) : ℤ := min 100 (max 0 r)

/-- Lines 196-212 of getModuleProgress: over the completed unit records under
the module root (wildcard match), sum the average minutes of those on the
active path and count them. -/
def userCompletedStats (md : ModuleData) (st : ProgressState) (midKey : String)
    (activePathIds : List String) : ℚ × Nat :=
  let userData := getRecordsW st "units" midKey
  let complete := (userData.filter (fun kv => optTruthy kv.2.completed_at)).map Prod.fst
  complete.foldl
    (fun acc completeId =>
      if completeId ∈ activePathIds then
        match alGet md completeId with
        | some item =>
          let mm :=
            match item.minutes with
            | some r => r
            | none => ((0 : ℚ), (0 : ℚ))
          (acc.1 + (mm.1 + mm.2) / 2, acc.2 + 1)
        | none => (acc.1, acc.2 + 1)
      else acc)
    ((0 : ℚ), (0 : Nat))

/-- Lines 155-161 of getModuleProgress: a top-level module root is replaced by
the user's last accessed descendant when one exists. -/
def resolveActive (md : ModuleData) (st : ProgressState) (pageId : String) : String :=
  match alGet md pageId with
  | none => pageId
  | some node =>
    if node.parent = some "modules" then
      match getLastAccessed st "modules" pageId with
      | some la => la.1
      | none => pageId
    else pageId

/-- The final arithmetic of getModuleProgress (lines 214-219): time-weighted
ratio when a base time exists, count ratio otherwise, both clamped. -/
def progressValue (base : ℚ × ℚ) (stats : ℚ × Nat) (len : Nat) : ℤ :=
  let baseTimeAvg : ℚ := (base.1 + base.2) / 2
  if baseTimeAvg ≠ 0 then jsClamp (jsRound (100 * stats.1 / baseTimeAvg))
  else jsClamp (jsRound (100 * (stats.2 : ℚ) / (len : ℚ)))

/-- getModuleProgress (lines 149-220). -/
def getModuleProgress (md : ModuleData) (fuel : Nat) (st : ProgressState)
    (pageId : String) : RunRes ℤ :=
  match alGet md pageId with
  | none => .ok 0
  | some _ =>
    let activeItemId := resolveActive md st pageId
    (getActivePathIds md fuel activeItemId).bind (fun activePathIds =>
      match alGet md activeItemId with
      | none => .ok 0
      | some currentPageData =>
        (childRootOf md activeItemId currentPageData).bind (fun childRoot =>
          ((match alGet md childRoot with
            | none => .typeError
            | some crNode =>
              let base0 : ℚ × ℚ :=
                match crNode.remaining with
                | some rr => rr
                | none => (0, 0)
              if optTruthy crNode.parent then baseAscend md fuel crNode.parent base0
              else .ok base0 : RunRes (ℚ × ℚ))).bind (fun base =>
            (getModuleRoot md fuel pageId).bind (fun moduleId =>
              let stats := userCompletedStats md st (jsKey moduleId) activePathIds
              .ok (progressValue base stats activePathIds.length)))))

/-! The stateful write path. Every `updateField` call (lines 293-335) merges
into the in-memory state synchronously, persists the full snapshot to local
storage and, when authenticated, dispatches a remote PUT; the writes log below
records one entry per `updateField` invocation, so an empty extension of the
log is exactly a write-free (no-op) step. `new Date().toISOString()` values
are drawn from an abstract clock indexed by a tick counter, one tick per
`new Date()` call, in source evaluation order. -/

/-- One updateField invocation: the learning-type key (already coerced to a
string, `'undefined'` for an unclassifiable type), the page id, and the update
fragment passed. -/
structure UpdateCall where
  lt : String
  id : String
  fields : Learning
deriving Repr, DecidableEq

/-- The mutable service state: the in-memory ProgressState, the clock tick
counter, and the log of updateField invocations. -/
structure S where
  progress : ProgressState
  tick : Nat
  writes : List UpdateCall
deriving Repr, DecidableEq

/-- The synchronous part of updateField (lines 293-306): create the type map
and record if absent, merge the fragment, log the write. -/
def updateFieldS (s : S) (lt id : String) (fv : Learning) : S :=
  let tMap :=
    match alGet s.progress lt with
    | some m => m
    | none => []
  let oldRec :=
    match alGet tMap id with
    | some r => r
    | none => {}
  { s with
    progress := alSet s.progress lt (alSet tMap id (mergeRecord oldRec fv))
    writes := s.writes ++ [⟨lt, id, fv⟩] }

/-- startPage (lines 39-48): classify, write started_at under the (possibly
undefined) learning type, and additionally under units for a module root. A
thrown classification error aborts before any write. -/
def startPage (md : ModuleData) (td : TrackData) (fuel : Nat) (clock : Nat → String)
    (pageId : String) (s : S) : S :=
  match getLearningType md td fuel pageId with
  | .ok lt =>
    let t1 := clock s.tick
    let s1 := updateFieldS { s with tick := s.tick + 1 } (jsKey lt) pageId
      { started_at := some t1 }
    if lt = some "modules" then
      let t2 := clock s1.tick
      updateFieldS { s1 with tick := s1.tick + 1 } "units" pageId
        { started_at := some t2 }
    else s1
  | _ => s

/-- completeModule (lines 71-81). Note the source guard `if (newData)` tests
an object, which is always truthy, so the update is issued even when `newData`
stayed empty; the `return Observable.from([])` branch is unreachable. A thrown
getModuleRoot or getModuleProgress error aborts before the write. -/
def completeModule (md : ModuleData) (fuel : Nat) (clock : Nat → String)
    (pageId : String) (s : S) : S :=
  match getModuleRoot md fuel pageId with
  | .ok moduleId =>
    let midKey := jsKey moduleId
    let cur := getRecord s.progress "modules" midKey
    let nd1 : Learning :=
      if optTruthy cur.started_at then {}
      else { started_at := some (clock s.tick) }
    let s1 : S :=
      if optTruthy cur.started_at then s else { s with tick := s.tick + 1 }
    if optTruthy cur.completed_at then updateFieldS s1 "modules" midKey nd1
    else
      match getModuleProgress md fuel s1.progress pageId with
      | .ok v =>
        if 100 ≤ v then
          updateFieldS { s1 with tick := s1.tick + 1 } "modules" midKey
            { nd1 with completed_at := some (clock s1.tick) }
        else updateFieldS s1 "modules" midKey nd1
      | _ => s1
  | _ => s

/-- One iteration of the completeTracks forEach (lines 86-99): when every
member module is completed, stamp the unset fields and issue the update; as in
completeModule the `if (newData)` guard is always truthy, so a track already
fully marked is still written with an empty fragment. -/
def completeTracksStep (clock : Nat → String) (s : S) (kv : String × Track) : S :=
  match kv.2.modules with
  | none => s
  | some mods =>
    let complete := mods.filter
      (fun m => optTruthy (getRecord s.progress "modules" m).completed_at)
    if mods.length = complete.length then
      let cur := getRecord s.progress "tracks" kv.1
      let nd1 : Learning :=
        if optTruthy cur.started_at then {}
        else { started_at := some (clock s.tick) }
      let s1 : S :=
        if optTruthy cur.started_at then s else { s with tick := s.tick + 1 }
      let nd2 : Learning :=
        if optTruthy cur.completed_at then nd1
        else { nd1 with completed_at := some (clock s1.tick) }
      let s2 : S :=
        if optTruthy cur.completed_at then s1 else { s1 with tick := s1.tick + 1 }
      updateFieldS s2 "tracks" kv.1 nd2
    else s

/-- completeTracks (lines 83-101): fold over the track catalog in key order. -/
def completeTracks (td : TrackData) (clock : Nat → String) (s : S) : S :=
  td.foldl (fun s2 kv => completeTracksStep clock s2 kv) s

/-- The achievements map of a state: `data['achievements'] || {}`. -/
def achMap (st : ProgressState) : List (String × Learning) :=
  match alGet st "achievements" with
  | some m => m
  | none => []

/-- The modules map of a state: `data['modules'] || {}`. -/
def modulesMap (st : ProgressState) : List (String × Learning) :=
  match alGet st "modules" with
  | some m => m
  | none => []

/-- The tracks map of a state: `data['tracks'] || {}`. -/
def tracksMap (st : ProgressState) : List (String × Learning) :=
  match alGet st "tracks" with
  | some m => m
  | none => []

/-- The achievement guard reads of lines 111 and 122: `achievementsData` is the
object captured before the writes; it aliases the live achievements map when
that key already existed, and is a detached empty object otherwise. -/
def achGuard (aliased : Bool) (captured : List (String × Learning))
    (st : ProgressState) (k : String) : Bool :=
  if aliased then (alGet (achMap st) k).isSome
  else (alGet captured k).isSome

/-- One iteration of the per-track grant loop (lines 121-128). -/
def awardStep (clock : Nat → String) (aliased : Bool)
    (captured : List (String × Learning)) (s2 : S) (trackId : String) : S :=
  if achGuard aliased captured s2.progress trackId then s2
  else
    updateFieldS { s2 with tick := s2.tick + 1 } "achievements" trackId
      { achievement_type := some "standard", earned_at := some (clock s2.tick) }

/-- awardAchievements (lines 103-131): grant grand-opening when some module is
completed and it is not yet recorded, then grant one achievement per completed
track not yet recorded. -/
def awardAchievements (clock : Nat → String) (s : S) : S :=
  let modulesData := modulesMap s.progress
  let tracksData := tracksMap s.progress
  let aliased := (alGet s.progress "achievements").isSome
  let captured := achMap s.progress
  let s1 :=
    if 0 < (modulesData.filter (fun kv => optTruthy kv.2.completed_at)).length then
      if achGuard aliased captured s.progress "grand-opening" then s
      else
        updateFieldS { s with tick := s.tick + 1 } "achievements" "grand-opening"
          { achievement_type := some "standard", earned_at := some (clock s.tick) }
    else s
  let completedTracks :=
    (tracksData.filter (fun kv => optTruthy kv.2.completed_at)).map Prod.fst
  completedTracks.foldl (awardStep clock aliased captured) s1

/-- completePage (lines 50-63): classify; a type other than units or modules
is a no-op; otherwise write the unit completion and run the cascade stages in
source evaluation order (each stage reads the state the previous one wrote). -/
def completePage (md : ModuleData) (td : TrackData) (fuel : Nat) (clock : Nat → String)
    (pageId : String) (s : S) : S :=
  match getLearningType md td fuel pageId with
  | .ok lt =>
    if lt ≠ some "units" ∧ lt ≠ some "modules" then s
    else
      let s1 := updateFieldS { s with tick := s.tick + 1 } "units" pageId
        { completed_at := some (clock s.tick) }
      let s2 := completeModule md fuel clock pageId s1
      let s3 := completeTracks td clock s2
      awardAchievements clock s3
  | _ => s

/-- The public write operations of the service. -/
inductive Op where
  | start (pageId : String)
  | complete (pageId : String)
deriving Repr, DecidableEq

def runOp (md : ModuleData) (td : TrackData) (fuel : Nat) (clock : Nat → String) :
    Op → S → S
  | .start p, s => startPage md td fuel clock p s
  | .complete p, s => completePage md td fuel clock p s

def runOps (md : ModuleData) (td : TrackData) (fuel : Nat) (clock : Nat → String) :
    List Op → S → S
  | [], s => s
  | o :: os, s => runOps md td fuel clock os (runOp md td fuel clock o s)

/-! The event-trace layer for session initialization and the dispatch ordering
of updateField: an ordered list of the observable interactions, with the
asynchronous remote-request settlements (which only republish) following all
synchronously dispatched events. -/

inductive Ev where
  | localWrite (snapshot : ProgressState)
  | remotePut (lt id : String) (fields : Learning)
  | publish (snapshot : ProgressState)
  | remoteGet
  | startPageCalled (pageId : String)
deriving Repr, DecidableEq

/-- updateField (lines 293-335) at the event level: merge into the in-memory
state, persist, then either publish at once (anonymous) or dispatch the remote
PUT carrying the merged record fragment (authenticated; the settlement
republication is asynchronous and outside this dispatch-ordered trace). -/
def updateFieldT (auth : Bool) (st : ProgressState) (lt id : String) (fv : Learning) :
    ProgressState × List Ev :=
  let tMap :=
    match alGet st lt with
    | some m => m
    | none => []
  let oldRec :=
    match alGet tMap id with
    | some r => r
    | none => {}
  let merged := mergeRecord oldRec fv
  let st2 := alSet st lt (alSet tMap id merged)
  (st2, [Ev.localWrite st2] ++ if auth then [Ev.remotePut lt id merged] else [Ev.publish st2])

/-- One replayed entry of the loop body (line 377): push the stored fields of
one (type, id) through updateField against the current in-memory state,
accumulating the dispatched events. -/
def replayRecord (acc2 : ProgressState × List Ev) (ltKey : String)
    (idEntry : String × Learning) : ProgressState × List Ev :=
  let r := updateFieldT true acc2.1 ltKey idEntry.1 idEntry.2
  (r.1, acc2.2 ++ r.2)

/-- The inner forEach of line 376: replay every id of one learning type. -/
def replayType (acc : ProgressState × List Ev)
    (ltEntry : String × List (String × Learning)) : ProgressState × List Ev :=
  ltEntry.2.foldl (fun acc2 idEntry => replayRecord acc2 ltEntry.1 idEntry) acc

/-- The replay loop of lines 375-379: every locally stored (type, id, fields)
entry is pushed through updateField against the current in-memory state. -/
def replayEntries (st0 : ProgressState) (existing : ProgressState) :
    ProgressState × List Ev :=
  existing.foldl replayType (st0, [])

/-- initUserProgressData (lines 358-395): `st0` is the in-memory state held by
the subject before initialization, `existing` the locally persisted snapshot,
`fetch` the outcome of the remote GET (`none` is a fetch failure). The
returned state is the published one and the events are in dispatch order, the
GET settlement events last. -/
def initUserProgressDataT (auth wasAnon : Bool) (st0 existing : ProgressState)
    (pageId : String) (fetch : Option ProgressState) : ProgressState × List Ev :=
  if auth = false then
    (existing, [Ev.publish existing, Ev.startPageCalled pageId])
  else
    let rep := if wasAnon then replayEntries st0 existing else (st0, [])
    match fetch with
    | some res =>
      (res, rep.2 ++ [Ev.remoteGet, Ev.localWrite res, Ev.publish res,
        Ev.startPageCalled pageId])
    | none =>
      (existing, rep.2 ++ [Ev.remoteGet, Ev.publish existing,
        Ev.startPageCalled pageId])

/-! Predicates used by the theorem statements. -/

/-- Every field present in `r` is present in `ch` with the same value. -/
def fieldsIncl (r ch : Learning) : Prop :=
  (∀ t, r.started_at = some t → ch.started_at = some t) ∧
  (∀ t, r.completed_at = some t → ch.completed_at = some t) ∧
  (∀ t, r.achievement_type = some t → ch.achievement_type = some t) ∧
  (∀ t, r.earned_at = some t → ch.earned_at = some t)

/-- The wall clock produces lexicographically nondecreasing ISO timestamps. -/
def clockMono (clock : Nat → String) : Prop :=
  ∀ i j : Nat, i ≤ j → jsLtB (clock j) (clock i) = false

/-- Every started_at / completed_at timestamp stored in the state was produced
by a clock tick strictly before the current one. -/
def stampsOk (clock : Nat → String) (s : S) : Prop :=
  ∀ lt id,
    (∀ t, (getRecord s.progress lt id).started_at = some t →
      ∃ i, i < s.tick ∧ t = clock i) ∧
    (∀ t, (getRecord s.progress lt id).completed_at = some t →
      ∃ i, i < s.tick ∧ t = clock i)

/-- Monotonicity of a single record across a step: a set completed_at stays
set and never moves lexicographically earlier, and a set started_at stays
set. -/
def recMono (a b : Learning) : Prop :=
  (∀ t, a.completed_at = some t → ∃ u, b.completed_at = some u ∧ jsLtB u t = false) ∧
  (a.started_at.isSome = true → b.started_at.isSome = true)

/-- recMono at every record of the state. -/
def stateMono (s s2 : S) : Prop :=
  ∀ lt id, recMono (getRecord s.progress lt id) (getRecord s2.progress lt id)

/-- How a run started at clock tick `n` evolves stored records: a
completed_at is either untouched or rewritten to a clock value of a tick at
or after `n` (it is in particular never cleared); a set started_at stays
set. -/
def evolutionFrom (clock : Nat → String) (n : Nat) (st st2 : ProgressState) : Prop :=
  ∀ lt id,
    ((getRecord st2 lt id).completed_at = (getRecord st lt id).completed_at ∨
      ∃ i, n ≤ i ∧ (getRecord st2 lt id).completed_at = some (clock i)) ∧
    ((getRecord st lt id).started_at.isSome = true →
      (getRecord st2 lt id).started_at.isSome = true)

/-- How a run evolves the state: the tick only advances and the records
evolve as evolutionFrom the run's entry tick. -/
def stampEvolution (clock : Nat → String) (s s2 : S) : Prop :=
  s.tick ≤ s2.tick ∧ evolutionFrom clock s.tick s.progress s2.progress

/-- The awardAchievements grant condition of lines 110 and 120: some module
record is completed, or some track record is completed. -/
def grantCondition (s : S) : Prop :=
  (modulesMap s.progress).filter (fun kv => optTruthy kv.2.completed_at) ≠ [] ∨
    (tracksMap s.progress).filter (fun kv => optTruthy kv.2.completed_at) ≠ []

/-! Concrete data used by witnesses and counterexamples. Content identifiers
follow the site's path convention (unit pages are keyed under their module
root, for example `m/u` under `m`), and the catalog contains the literal root
node `modules` just as `window.dataTree.modules` does. -/

/-- A small well-formed catalog: root `modules`, one module `m` with one unit
`m/u` and five estimated minutes. -/
def exCat : ModuleData :=
  [("modules", { children := some ["m"] }),
   ("m", { parent := some "modules", children := some ["m/u"], remaining := some (5, 5) }),
   ("m/u", { parent := some "m", minutes := some (5, 5) })]

/-- A catalog with no time estimates anywhere (count-based fallback). -/
def exCatNoTime : ModuleData :=
  [("modules", { children := some ["n"] }),
   ("n", { parent := some "modules", children := some ["n/a", "n/b"] }),
   ("n/a", { parent := some "n" }),
   ("n/b", { parent := some "n" })]

/-- One track whose only member module is `m`. -/
def exTracks : TrackData := [("t", { modules := some ["m"] })]

/-- A known node whose parent names the root sentinel, with the sentinel
itself absent from the module map. -/
def mdDangling : ModuleData := [("p1", { parent := some "modules" })]

/-- A known node whose parent names an absent non-sentinel node. -/
def mdDangling2 : ModuleData := [("q1", { parent := some "gone" })]

/-- A module map whose parent links form a two-cycle. -/
def mdCycle : ModuleData :=
  [("a", { parent := some "b" }), ("b", { parent := some "a" })]

/-- A module map whose children relation is a self-loop. -/
def mdCycle2 : ModuleData := [("a", { children := some ["a"] })]

/-- A constant clock (trivially nondecreasing). -/
def cClockT : Nat → String := fun _ => "T"

/-- A two-valued strictly increasing clock for the overwrite counterexample. -/
def ceClock : Nat → String := fun i => if i = 0 then "A" else "B"

/-- The empty initial service state. -/
def initS : S := { progress := [], tick := 0, writes := [] }

/-- A state where module `m` and track `t` are already fully stamped: no
cascade step has a qualifying change left. -/
def sFull : S :=
  { progress :=
      [("modules", [("m", { started_at := some "A", completed_at := some "B" })]),
       ("tracks", [("t", { started_at := some "A", completed_at := some "B" })])],
    tick := 0, writes := [] }

/-- The progress state of the getLastAccessed failing input: `p1` was started
recently but never completed, `p1/a` was fully completed much earlier. -/
def exC3State : ProgressState :=
  [("units",
    [("p1", { started_at := some "2020-01-01T00:00:00Z" }),
     ("p1/a", { started_at := some "2024-01-01T00:00:00Z",
                completed_at := some "2024-01-02T00:00:00Z" })])]

/-- Unit `m/u` completed (with its full five minutes accounted). -/
def exStDone : ProgressState :=
  [("units", [("m/u", { started_at := some "A", completed_at := some "B" })])]

/-- Unit `n/a` of the estimate-free module completed. -/
def exStCount : ProgressState :=
  [("units", [("n/a", { completed_at := some "B" })])]

/-- A state with a completed module and a completed track, so both grant
conditions of awardAchievements hold. -/
def exAwardState : S :=
  { progress :=
      [("modules", [("m", { completed_at := some "B" })]),
       ("tracks", [("t", { completed_at := some "B" })])],
    tick := 0, writes := [] }

/-- A local snapshot holding a single completed unit record, as in the
reconciliation scenario. -/
def exLocal : ProgressState :=
  [("units", [("p1", { completed_at := some "T" })])]

/-! Shared lemmas about the association-list object model and the merge.
Batteries marks the rational-number operations irreducible, which blocks
evaluation of the time arithmetic inside concrete witnesses; restoring their
standard reducibility lets the kernel run them. -/

attribute [local semireducible] Rat.add Rat.mul Rat.inv

theorem alGet_alSet_self {α : Type} (m : List (String × α)) (k : String) (v : α) :
    alGet (alSet m k v) k = some v := by
  induction m with
  | nil => simp [alGet, alSet]
  | cons kv rest ih =>
    by_cases h : kv.1 = k
    · simp [alSet, h, alGet]
    · simp [alSet, h, alGet, ih]

theorem alGet_alSet_ne {α : Type} (m : List (String × α)) (k k2 : String) (v : α)
    (h : k2 ≠ k) : alGet (alSet m k v) k2 = alGet m k2 := by
  induction m with
  | nil => simp [alGet, alSet, Ne.symm h]
  | cons kv rest ih =>
    obtain ⟨k1, v1⟩ := kv
    by_cases h1 : k1 = k
    · subst h1
      simp [alSet, alGet, Ne.symm h]
    · simp [alSet, h1, alGet, ih]

theorem alGet_mem {α : Type} {m : List (String × α)} {k : String} {v : α}
    (h : alGet m k = some v) : (k, v) ∈ m := by
  induction m with
  | nil => simp [alGet] at h
  | cons kv rest ih =>
    obtain ⟨k1, v1⟩ := kv
    rw [alGet] at h
    by_cases heq : k1 = k
    · rw [if_pos heq] at h
      cases h
      subst heq
      exact List.mem_cons_self _ _
    · rw [if_neg heq] at h
      exact List.mem_cons_of_mem _ (ih h)

theorem alGet_alSet_isSome {α : Type} (m : List (String × α)) (k k2 : String) (v : α)
    (h : (alGet m k2).isSome = true) : (alGet (alSet m k v) k2).isSome = true := by
  by_cases hk : k2 = k
  · rw [hk, alGet_alSet_self]; rfl
  · rw [alGet_alSet_ne _ _ _ _ hk]; exact h

theorem optOr_none (b : Option String) : optOr none b = b := rfl

theorem optOr_some (a : String) (b : Option String) : optOr (some a) b = some a := rfl

theorem fieldsIncl_merge (old fv : Learning) : fieldsIncl fv (mergeRecord old fv) := by
  refine ⟨?_, ?_, ?_, ?_⟩ <;> intro t h <;> simp [mergeRecord, h, optOr_some]

/-! Shared lemmas about updateFieldS. -/

theorem updateFieldS_tick (s : S) (lt id : String) (fv : Learning) :
    (updateFieldS s lt id fv).tick = s.tick := rfl

theorem updateFieldS_writes (s : S) (lt id : String) (fv : Learning) :
    (updateFieldS s lt id fv).writes = s.writes ++ [⟨lt, id, fv⟩] := rfl

theorem getRecord_updateFieldS_self (s : S) (lt id : String) (fv : Learning) :
    getRecord (updateFieldS s lt id fv).progress lt id =
      mergeRecord (getRecord s.progress lt id) fv := by
  cases h1 : alGet s.progress lt with
  | none =>
    simp [updateFieldS, getRecord, h1, alGet_alSet_self, alGet]
  | some m =>
    cases h2 : alGet m id <;>
      simp [updateFieldS, getRecord, h1, h2, alGet_alSet_self]

theorem getRecord_updateFieldS_ne (s : S) (lt id lt2 id2 : String) (fv : Learning)
    (h : lt2 ≠ lt ∨ id2 ≠ id) :
    getRecord (updateFieldS s lt id fv).progress lt2 id2 =
      getRecord s.progress lt2 id2 := by
  by_cases hlt : lt2 = lt
  · subst hlt
    have hid : id2 ≠ id := by
      rcases h with h | h
      · exact absurd rfl h
      · exact h
    cases h1 : alGet s.progress lt2 with
    | none =>
      simp [updateFieldS, getRecord, h1, alGet_alSet_self,
        alGet_alSet_ne _ _ _ _ hid, alGet, alSet, Ne.symm hid]
    | some m =>
      simp [updateFieldS, getRecord, h1, alGet_alSet_self,
        alGet_alSet_ne _ _ _ _ hid]
  · cases h1 : alGet s.progress lt with
    | none =>
      simp [updateFieldS, getRecord, h1, alGet_alSet_ne _ _ _ _ hlt]
    | some m =>
      simp [updateFieldS, getRecord, h1, alGet_alSet_ne _ _ _ _ hlt]

theorem alGet_updateFieldS_progress_ne (s : S) (lt id lt2 : String) (fv : Learning)
    (h : lt2 ≠ lt) :
    alGet (updateFieldS s lt id fv).progress lt2 = alGet s.progress lt2 := by
  unfold updateFieldS
  exact alGet_alSet_ne _ _ _ _ h

/-! C1: the cascade steps with no qualifying change still issue an update.
The source guard `if (newData)` (lines 79 and 96) tests an object, which is
always truthy in JavaScript, so with `newData` empty the update — and with it
a local-storage write and, when authenticated, a remote PUT — is still
issued; the `return Observable.from([])` no-op branch on line 80 is dead
code. -/

/-- C1 (code bug evidence): with module `m` and track `t` both already fully
stamped (started and completed), completeModule still issues
`update(modules, m, {})` and completeTracks still issues
`update(tracks, t, {})` — each a spurious persisted (and, if authenticated,
remote) write, where the claim requires a no-op. -/
theorem C1_cascade_spurious_writes :
    (completeModule exCat 9 cClockT "m/u" sFull).writes =
      sFull.writes ++ [⟨"modules", "m", {}⟩] ∧
    (completeTracks exTracks cClockT sFull).writes =
      sFull.writes ++ [⟨"tracks", "t", {}⟩] := by
  constructor <;> rfl

/-! C3: getLastAccessed and records with a single timestamp. The touch time
is computed as `[started_at, completed_at].sort().reverse()[0]` (lines
142-143); the ECMAScript default sort places undefined elements at the end of
the array, so for a record with only one of the two fields set the reversed
head is undefined, and the comparator `(dateA > dateB) ? -1 : 1` never ranks
such a record later than anything. -/

/-- C3 (code bug evidence): `p1` was started in 2024-adjacent terms most
recently touched in 2020-started-only fashion — concretely, `p1` has only
`started_at` (2020) and `p1/a` has both fields with the later touch time
2024-01-02. The claim requires the record with the latest touch time,
`p1/a`; the code returns `p1`, because `p1`'s touch time evaluates to
undefined and the stable sort leaves the key order unchanged. -/
theorem C3_lastAccessed_failing_eval :
    getLastAccessed exC3State "units" "p1" =
      some ("p1", { started_at := some "2020-01-01T00:00:00Z" }) ∧
    touchTime { started_at := some "2024-01-01T00:00:00Z",
                completed_at := some "2024-01-02T00:00:00Z" } =
      some "2024-01-02T00:00:00Z" ∧
    jsLtB "2020-01-01T00:00:00Z" "2024-01-02T00:00:00Z" = true := by
  refine ⟨rfl, rfl, ?_⟩
  decide

/-! C4 counterexample: a second startPage on the same page overwrites a set
started_at with the later timestamp (updateField performs an unconditional
per-field merge, lines 301-303, and startPage always passes a fresh
started_at, line 42). -/

/-- C4 counterexample: under the strictly increasing clock A, B, ... the
first start sets `started_at = A` and a repeated start overwrites it with the
later `B`, so "once set, never overwritten by a later start" fails on the
code as stated. -/
theorem C4_started_overwrite_counterexample :
    (getRecord (runOps exCat exTracks 9 ceClock [Op.start "m/u"] initS).progress
        "units" "m/u").started_at = some "A" ∧
    (getRecord (runOps exCat exTracks 9 ceClock
        [Op.start "m/u", Op.start "m/u"] initS).progress
        "units" "m/u").started_at = some "B" ∧
    jsLtB "A" "B" = true := by
  refine ⟨rfl, rfl, ?_⟩
  decide

/-! C5 counterexample: the parent-chain dereferences are unguarded. With a
known node whose parent names a node absent from the module map — including
the root sentinel `modules` itself — `moduleData[parent].is_fork` (lines 173
and 229) and `moduleData[parent].parent` (line 264 via the loop test) throw a
TypeError instead of returning a safe default. -/

/-- C5 counterexample: on the catalog holding only `p1` with parent
`modules` (the sentinel absent from the map), getActivePathIds and
getModuleProgress throw; on the catalog holding only `q1` with parent `gone`,
getModuleRoot throws. The claim's "every dereference is guarded, the error
branch is unreachable" is false. -/
theorem C5_parent_fault_counterexample :
    getActivePathIds mdDangling 9 "p1" = RunRes.typeError ∧
    getModuleProgress mdDangling 9 [] "p1" = RunRes.typeError ∧
    getModuleRoot mdDangling2 9 "q1" = RunRes.typeError := by
  refine ⟨rfl, rfl, rfl⟩

/-- C5 amended: for identifiers unknown to the catalog (absent from both the
module map and the track collection), the classification and progress
functions do return the safe defaults none/0/empty without any fault — but
only for unknown identifiers; the parent-chain dereferences of known nodes
are unguarded, and a parent naming an absent node (the root sentinel
included) faults, as the counterexample shows. -/
theorem C5_safe_defaults_amended (md : ModuleData) (td : TrackData) (fuel : Nat)
    (st : ProgressState) (id : String)
    (hm : alGet md id = none) (ht : alGet td id = none) :
    getModuleRoot md fuel id = RunRes.ok none ∧
    getActivePathIds md fuel id = RunRes.ok [] ∧
    getModuleProgress md fuel st id = RunRes.ok 0 ∧
    getLearningType md td fuel id = RunRes.ok none := by
  refine ⟨?_, ?_, ?_, ?_⟩
  · unfold getModuleRoot
    rw [hm]
  · unfold getActivePathIds
    rw [hm]
  · unfold getModuleProgress
    rw [hm]
  · unfold getLearningType
    by_cases h : id = "modules" ∨ id = "tracks"
    · rw [if_pos h]
    · rw [if_neg h]
      unfold getModuleRoot
      rw [hm]
      simp [RunRes.bind, optTruthy, ht]

/-- C5 amended, witness: the unknown identifier `zz` on the example catalog
yields the four safe defaults. -/
theorem C5_safe_defaults_amended_witness :
    getModuleRoot exCat 9 "zz" = RunRes.ok none ∧
    getActivePathIds exCat 9 "zz" = RunRes.ok [] ∧
    getModuleProgress exCat 9 [] "zz" = RunRes.ok 0 ∧
    getLearningType exCat exTracks 9 "zz" = RunRes.ok none :=
  C5_safe_defaults_amended exCat exTracks 9 [] "zz" rfl rfl

/-! C9: startPage on an unclassifiable identifier is not a no-op. When
getLearningType returns undefined, startPage still calls
`updateField(undefined, pageId, {started_at})` (line 42); property access
with an undefined key reads and writes the string key `'undefined'`, so the
state gains a persisted record under the `'undefined'` learning type. -/

/-- C9: whenever the classification of `pageId` is undefined (the literals
`modules` and `tracks`, and every id unknown to both collections), startPage
issues exactly one update carrying started_at, keyed under the `'undefined'`
learning type, and the resulting state holds that record — a state mutation
for an id that is not a page. -/
theorem C9_startPage_undefined_key (md : ModuleData) (td : TrackData) (fuel : Nat)
    (clock : Nat → String) (pageId : String) (s : S)
    (h : getLearningType md td fuel pageId = RunRes.ok none) :
    (startPage md td fuel clock pageId s).writes =
      s.writes ++ [⟨"undefined", pageId, { started_at := some (clock s.tick) }⟩] ∧
    (getRecord (startPage md td fuel clock pageId s).progress
        "undefined" pageId).started_at = some (clock s.tick) := by
  unfold startPage
  rw [h]
  constructor
  · simp [jsKey, updateFieldS_writes]
  · simp only [jsKey]
    have hne : (none : Option String) = some "modules" ↔ False := by simp
    rw [if_neg hne.mp]
    rw [getRecord_updateFieldS_self]
    simp [mergeRecord, optOr]

/-- C9 witness: the literal container root `modules` is unclassifiable and a
start on it writes a started_at record under the `'undefined'` key. -/
theorem C9_startPage_undefined_key_witness :
    (startPage exCat exTracks 9 cClockT "modules" initS).writes =
      initS.writes ++ [⟨"undefined", "modules", { started_at := some "T" }⟩] ∧
    (getRecord (startPage exCat exTracks 9 cClockT "modules" initS).progress
        "undefined" "modules").started_at = some "T" :=
  C9_startPage_undefined_key exCat exTracks 9 cClockT "modules" initS rfl

/-! C8: the in-memory state reflects an update before the remote request is
dispatched. updateField merges into the state object held by the
BehaviorSubject synchronously (lines 301-303) before `put` is called (line
315); in the authenticated case no publish event occurs until settlement, yet
a read through getUserProgressData observes the merged record at once. -/

/-- C8: after any update call the read of the same (learningType, id) returns
the merged record — and in the authenticated case, where the trace holds only
the local persist followed by the remote PUT dispatch and no publish at all,
the read still observes the new values while the request is pending. -/
theorem C8_read_after_update (auth : Bool) (st : ProgressState) (lt id : String)
    (fv : Learning) :
    getRecord (updateFieldT auth st lt id fv).1 lt id =
      mergeRecord (getRecord st lt id) fv ∧
    (auth = true →
      (updateFieldT auth st lt id fv).2 =
        [Ev.localWrite (updateFieldT auth st lt id fv).1,
         Ev.remotePut lt id (mergeRecord (getRecord st lt id) fv)] ∧
      ∀ ps, Ev.publish ps ∉ (updateFieldT auth st lt id fv).2) := by
  constructor
  · cases h1 : alGet st lt with
    | none =>
      simp [updateFieldT, getRecord, h1, alGet_alSet_self, alGet]
    | some m =>
      cases h2 : alGet m id <;>
        simp [updateFieldT, getRecord, h1, h2, alGet_alSet_self]
  · intro ha
    subst ha
    constructor
    · cases h1 : alGet st lt with
      | none => simp [updateFieldT, getRecord, h1, alGet]
      | some m => cases h2 : alGet m id <;> simp [updateFieldT, getRecord, h1, h2]
    · intro ps
      cases h1 : alGet st lt with
      | none => simp [updateFieldT, h1, alGet]
      | some m => cases h2 : alGet m id <;> simp [updateFieldT, h1, h2]

/-- C8 witness: a concrete authenticated update of a completed_at fragment is
observed by the read immediately, with only the persist and the PUT dispatch
in the trace and no publish. -/
theorem C8_read_after_update_witness :
    getRecord (updateFieldT true [] "units" "p1" { completed_at := some "T" }).1
        "units" "p1" =
      mergeRecord (getRecord [] "units" "p1") { completed_at := some "T" } ∧
    (updateFieldT true [] "units" "p1" { completed_at := some "T" }).2 =
      [Ev.localWrite (updateFieldT true [] "units" "p1"
          { completed_at := some "T" }).1,
       Ev.remotePut "units" "p1"
         (mergeRecord (getRecord [] "units" "p1") { completed_at := some "T" })] ∧
    ∀ ps, Ev.publish ps ∉
      (updateFieldT true [] "units" "p1" { completed_at := some "T" }).2 :=
  ⟨(C8_read_after_update true [] "units" "p1" { completed_at := some "T" }).1,
   ((C8_read_after_update true [] "units" "p1" { completed_at := some "T" }).2 rfl).1,
   ((C8_read_after_update true [] "units" "p1" { completed_at := some "T" }).2 rfl).2⟩

/-! C10: termination of the parent ascent and the recursive descent. A rank
function strictly decreasing along resolvable parent links (respectively along
child links) witnesses acyclicity of a finite catalog; with fuel above the
rank neither function runs out of fuel. On a cyclic catalog both loops run
forever: the fuelled embeddings report fuel exhaustion at every fuel. -/

theorem gmrLoop_no_fuelOut (md : ModuleData) (rank : String → Nat)
    (hr : ∀ id n p pn, alGet md id = some n → n.parent = some p → p ≠ "" →
      p ≠ "modules" → alGet md p = some pn → rank p < rank id) :
    ∀ fuel id n, alGet md id = some n → rank id < fuel →
      gmrLoop md fuel id n ≠ RunRes.fuelOut := by
  intro fuel
  induction fuel with
  | zero => intro id n _ hlt; omega
  | succ f ih =>
    intro id n hn hlt
    rw [gmrLoop]
    cases hp : n.parent with
    | none => simp
    | some p =>
      by_cases h1 : p = ""
      · simp [h1]
      · by_cases h2 : p = "modules"
        · simp [h1, h2]
        · cases hq : alGet md p with
          | none => simp [h1, h2, hq]
          | some pn =>
            have hrk := hr id n p pn hn hp h1 h2 hq
            simp [h1, h2, hq]
            exact ih p pn hq (by omega)

theorem foldBind_no_fuelOut (g : String → RunRes (List String)) :
    ∀ (cs : List String) (acc : RunRes (List String)), acc ≠ RunRes.fuelOut →
      (∀ c ∈ cs, g c ≠ RunRes.fuelOut) →
      cs.foldl
        (fun a c => a.bind (fun ids => (g c).bind (fun sub => .ok (ids ++ c :: sub))))
        acc ≠ RunRes.fuelOut := by
  intro cs
  induction cs with
  | nil => intro acc ha _; simpa using ha
  | cons c cs ih =>
    intro acc ha hall
    rw [List.foldl_cons]
    apply ih
    · cases acc with
      | ok a =>
        cases hc : g c with
        | ok sub => simp [RunRes.bind]
        | typeError => simp [RunRes.bind]
        | fuelOut => exact absurd hc (hall c (List.mem_cons_self _ _))
      | typeError => simp [RunRes.bind]
      | fuelOut => exact absurd rfl ha
    · intro d hd
      exact hall d (List.mem_cons_of_mem _ hd)

theorem getChildPathIds_no_fuelOut (md : ModuleData) (rank : String → Nat)
    (hr : ∀ id n cs c, alGet md id = some n → n.children = some cs → c ∈ cs →
      rank c < rank id) :
    ∀ fuel id, rank id < fuel → getChildPathIds md fuel id ≠ RunRes.fuelOut := by
  intro fuel
  induction fuel with
  | zero => intro id hlt; omega
  | succ f ih =>
    intro id hlt
    rw [getChildPathIds]
    cases hn : alGet md id with
    | none => simp
    | some n =>
      cases hc : n.children with
      | none => simp [hc]
      | some cs =>
        simp only [hc]
        apply foldBind_no_fuelOut (getChildPathIds md f)
        · simp
        · intro c hcm
          apply ih
          have := hr id n cs c hn hc hcm
          omega

theorem gmrLoop_cycle : ∀ fuel,
    gmrLoop mdCycle fuel "a" { parent := some "b" } = RunRes.fuelOut ∧
    gmrLoop mdCycle fuel "b" { parent := some "a" } = RunRes.fuelOut := by
  intro fuel
  induction fuel with
  | zero => exact ⟨rfl, rfl⟩
  | succ f ih =>
    constructor
    · rw [gmrLoop]
      simpa [mdCycle, alGet] using ih.2
    · rw [gmrLoop]
      simpa [mdCycle, alGet] using ih.1

theorem getChildPathIds_cycle : ∀ fuel,
    getChildPathIds mdCycle2 fuel "a" = RunRes.fuelOut := by
  intro fuel
  induction fuel with
  | zero => rfl
  | succ f ih =>
    rw [getChildPathIds]
    have h1 : alGet mdCycle2 "a" = some { children := some ["a"] } := rfl
    rw [h1]
    simp [List.foldl, ih, RunRes.bind]

/-- C10: with a rank strictly decreasing along resolvable parent links,
getModuleRoot never exhausts its fuel once the fuel exceeds the rank, and the
same holds for getChildPathIds with a rank decreasing along child links; the
acyclicity is necessary, since on the two-cycle catalog getModuleRoot runs
out at every fuel and on the self-loop catalog so does getChildPathIds. -/
theorem C10_termination :
    (∀ (md : ModuleData) (rank : String → Nat),
        (∀ id n p pn, alGet md id = some n → n.parent = some p → p ≠ "" →
          p ≠ "modules" → alGet md p = some pn → rank p < rank id) →
        ∀ fuel id, rank id < fuel → getModuleRoot md fuel id ≠ RunRes.fuelOut) ∧
    (∀ (md : ModuleData) (rank : String → Nat),
        (∀ id n cs c, alGet md id = some n → n.children = some cs → c ∈ cs →
          rank c < rank id) →
        ∀ fuel id, rank id < fuel → getChildPathIds md fuel id ≠ RunRes.fuelOut) ∧
    (∀ fuel, getModuleRoot mdCycle fuel "a" = RunRes.fuelOut) ∧
    (∀ fuel, getChildPathIds mdCycle2 fuel "a" = RunRes.fuelOut) := by
  refine ⟨?_, ?_, ?_, ?_⟩
  · intro md rank hr fuel id hlt
    unfold getModuleRoot
    cases hn : alGet md id with
    | none => simp
    | some n =>
      have := gmrLoop_no_fuelOut md rank hr fuel id n hn hlt
      cases hg : gmrLoop md fuel id n with
      | ok r => simp [hg, RunRes.bind]
      | typeError => simp [hg, RunRes.bind]
      | fuelOut => exact absurd hg this
  · exact getChildPathIds_no_fuelOut
  · intro fuel
    unfold getModuleRoot
    have h1 : alGet mdCycle "a" = some { parent := some "b" } := rfl
    rw [h1]
    simp [(gmrLoop_cycle fuel).1, RunRes.bind]
  · exact getChildPathIds_cycle

/-! C6: awardAchievements is idempotent. Presence of the key in the
achievements mapping is the grant guard (lines 111 and 122), the first run
leaves every triggered key present, and the run never touches the modules or
tracks maps, so a second run finds every guard satisfied and issues no
write. -/

theorem achMap_updateFieldS (s : S) (id : String) (fv : Learning) :
    ∃ r, achMap (updateFieldS s "achievements" id fv).progress =
      alSet (achMap s.progress) id r := by
  refine ⟨mergeRecord (match alGet (achMap s.progress) id with
    | some r => r
    | none => {}) fv, ?_⟩
  cases h1 : alGet s.progress "achievements" with
  | none => simp [updateFieldS, achMap, h1, alGet_alSet_self]
  | some m => simp [updateFieldS, achMap, h1, alGet_alSet_self]

theorem achMap_isSome_step (s : S) (id k : String) (fv : Learning)
    (h : (alGet (achMap s.progress) k).isSome = true) :
    (alGet (achMap (updateFieldS s "achievements" id fv).progress) k).isSome = true := by
  obtain ⟨r, hr⟩ := achMap_updateFieldS s id fv
  rw [hr]
  exact alGet_alSet_isSome _ _ _ _ h

theorem achMap_isSome_step_self (s : S) (id : String) (fv : Learning) :
    (alGet (achMap (updateFieldS s "achievements" id fv).progress) id).isSome = true := by
  obtain ⟨r, hr⟩ := achMap_updateFieldS s id fv
  rw [hr, alGet_alSet_self]
  rfl

theorem achMap_empty_of_not_aliased (st : ProgressState)
    (h : (alGet st "achievements").isSome = false) : achMap st = [] := by
  cases h1 : alGet st "achievements" with
  | none => simp [achMap, h1]
  | some m => rw [h1] at h; simp at h

theorem aliased_of_present (st : ProgressState) (k : String)
    (h : (alGet (achMap st) k).isSome = true) :
    (alGet st "achievements").isSome = true := by
  cases h1 : alGet st "achievements" with
  | none => simp [achMap, h1, alGet] at h
  | some m => simp [h1]

theorem achGuard_imp_present (al : Bool) (cap : List (String × Learning))
    (st : ProgressState) (k : String)
    (hcap : al = false → cap = [])
    (h : achGuard al cap st k = true) :
    (alGet (achMap st) k).isSome = true := by
  unfold achGuard at h
  cases al with
  | false =>
    rw [hcap rfl] at h
    simp [alGet] at h
  | true => simpa using h

theorem awardStep_preserves_isSome (clock : Nat → String) (al : Bool)
    (cap : List (String × Learning)) (s2 : S) (tId k : String)
    (h : (alGet (achMap s2.progress) k).isSome = true) :
    (alGet (achMap (awardStep clock al cap s2 tId).progress) k).isSome = true := by
  unfold awardStep
  split
  · exact h
  · exact achMap_isSome_step _ _ _ _ h

theorem foldl_awardStep_preserves_isSome (clock : Nat → String) (al : Bool)
    (cap : List (String × Learning)) :
    ∀ (l : List String) (s2 : S) (k : String),
      (alGet (achMap s2.progress) k).isSome = true →
      (alGet (achMap (List.foldl (awardStep clock al cap) s2 l).progress) k).isSome
        = true := by
  intro l
  induction l with
  | nil => intro s2 k h; simpa using h
  | cons a l ih =>
    intro s2 k h
    rw [List.foldl_cons]
    exact ih _ _ (awardStep_preserves_isSome clock al cap s2 a k h)

theorem foldl_awardStep_establishes (clock : Nat → String) (al : Bool)
    (cap : List (String × Learning)) (hcap : al = false → cap = []) :
    ∀ (l : List String) (s2 : S) (k : String), k ∈ l →
      (alGet (achMap (List.foldl (awardStep clock al cap) s2 l).progress) k).isSome
        = true := by
  intro l
  induction l with
  | nil => intro s2 k h; cases h
  | cons a l ih =>
    intro s2 k hk
    rw [List.foldl_cons]
    rcases List.mem_cons.mp hk with rfl | hk2
    · apply foldl_awardStep_preserves_isSome
      unfold awardStep
      split
      · rename_i hg
        exact achGuard_imp_present _ _ _ _ hcap hg
      · exact achMap_isSome_step_self _ _ _
    · exact ih _ _ hk2

theorem foldl_awardStep_id (clock : Nat → String)
    (cap : List (String × Learning)) (w : S) :
    ∀ l : List String,
      (∀ k ∈ l, (alGet (achMap w.progress) k).isSome = true) →
      List.foldl (awardStep clock ((alGet w.progress "achievements").isSome) cap) w l
        = w := by
  intro l
  induction l with
  | nil => intro _; rfl
  | cons a l ih =>
    intro h
    rw [List.foldl_cons]
    have ha := h a (List.mem_cons_self _ _)
    have hg : achGuard ((alGet w.progress "achievements").isSome) cap w.progress a
        = true := by
      unfold achGuard
      rw [aliased_of_present _ _ ha]
      simpa using ha
    have hstep : awardStep clock ((alGet w.progress "achievements").isSome) cap w a
        = w := by
      unfold awardStep
      rw [if_pos hg]
    rw [hstep]
    exact ih (fun k hk => h k (List.mem_cons_of_mem _ hk))

theorem awardStep_frame (clock : Nat → String) (al : Bool)
    (cap : List (String × Learning)) (s2 : S) (tId k : String)
    (h : k ≠ "achievements") :
    alGet (awardStep clock al cap s2 tId).progress k = alGet s2.progress k := by
  unfold awardStep
  split
  · rfl
  · exact alGet_updateFieldS_progress_ne _ _ _ _ _ h

theorem foldl_awardStep_frame (clock : Nat → String) (al : Bool)
    (cap : List (String × Learning)) (k : String) (h : k ≠ "achievements") :
    ∀ (l : List String) (s2 : S),
      alGet (List.foldl (awardStep clock al cap) s2 l).progress k
        = alGet s2.progress k := by
  intro l
  induction l with
  | nil => intro s2; rfl
  | cons a l ih =>
    intro s2
    rw [List.foldl_cons, ih, awardStep_frame clock al cap s2 a k h]

theorem award_frame (clock : Nat → String) (s : S) (k : String)
    (h : k ≠ "achievements") :
    alGet (awardAchievements clock s).progress k = alGet s.progress k := by
  unfold awardAchievements
  rw [foldl_awardStep_frame _ _ _ _ h]
  split
  · split
    · rfl
    · exact alGet_updateFieldS_progress_ne _ _ _ _ _ h
  · rfl

theorem award_establishes_grand (clock : Nat → String) (s : S)
    (hc : 0 < ((modulesMap s.progress).filter
      (fun kv => optTruthy kv.2.completed_at)).length) :
    (alGet (achMap (awardAchievements clock s).progress) "grand-opening").isSome
      = true := by
  unfold awardAchievements
  apply foldl_awardStep_preserves_isSome
  rw [if_pos hc]
  by_cases hg : achGuard ((alGet s.progress "achievements").isSome)
      (achMap s.progress) s.progress "grand-opening" = true
  · rw [if_pos hg]
    exact achGuard_imp_present _ _ _ _
      (fun hf => achMap_empty_of_not_aliased _ hf) hg
  · rw [if_neg hg]
    exact achMap_isSome_step_self _ _ _

theorem award_establishes_tracks (clock : Nat → String) (s : S) (k : String)
    (hk : k ∈ ((tracksMap s.progress).filter
      (fun kv => optTruthy kv.2.completed_at)).map Prod.fst) :
    (alGet (achMap (awardAchievements clock s).progress) k).isSome = true := by
  unfold awardAchievements
  exact foldl_awardStep_establishes _ _ _
    (fun hf => achMap_empty_of_not_aliased _ hf) _ _ _ hk

theorem award_eq_self (clock : Nat → String) (w : S)
    (hgrand : 0 < ((modulesMap w.progress).filter
        (fun kv => optTruthy kv.2.completed_at)).length →
      (alGet (achMap w.progress) "grand-opening").isSome = true)
    (htracks : ∀ k ∈ ((tracksMap w.progress).filter
        (fun kv => optTruthy kv.2.completed_at)).map Prod.fst,
      (alGet (achMap w.progress) k).isSome = true) :
    awardAchievements clock w = w := by
  unfold awardAchievements
  have hs1 : (if 0 < ((modulesMap w.progress).filter
        (fun kv => optTruthy kv.2.completed_at)).length then
      (if achGuard ((alGet w.progress "achievements").isSome) (achMap w.progress)
          w.progress "grand-opening" then w
        else updateFieldS { w with tick := w.tick + 1 } "achievements" "grand-opening"
          { achievement_type := some "standard", earned_at := some (clock w.tick) })
      else w) = w := by
    by_cases hc : 0 < ((modulesMap w.progress).filter
        (fun kv => optTruthy kv.2.completed_at)).length
    · rw [if_pos hc]
      have hp := hgrand hc
      have hg : achGuard ((alGet w.progress "achievements").isSome)
          (achMap w.progress) w.progress "grand-opening" = true := by
        unfold achGuard
        rw [aliased_of_present _ _ hp]
        simpa using hp
      rw [if_pos hg]
    · rw [if_neg hc]
  simp only [hs1]
  exact foldl_awardStep_id clock (achMap w.progress) w _ htracks

/-- C6: after a first awardAchievements run in a state satisfying the grant
condition, a second run is the identity — in particular it issues exactly
zero additional writes for the grand-opening achievement and for each
per-track achievement, because presence of the key in the achievements
mapping is the grant guard. -/
theorem C6_awardAchievements_idempotent (clock : Nat → String) (s : S)
    (h : grantCondition s) :
    awardAchievements clock (awardAchievements clock s) = awardAchievements clock s ∧
    (awardAchievements clock (awardAchievements clock s)).writes =
      (awardAchievements clock s).writes := by
  have hM : modulesMap (awardAchievements clock s).progress = modulesMap s.progress := by
    unfold modulesMap
    rw [award_frame clock s "modules" (by decide)]
  have hT : tracksMap (awardAchievements clock s).progress = tracksMap s.progress := by
    unfold tracksMap
    rw [award_frame clock s "tracks" (by decide)]
  have he : awardAchievements clock (awardAchievements clock s)
      = awardAchievements clock s := by
    apply award_eq_self
    · intro hc
      rw [hM] at hc
      exact award_establishes_grand clock s hc
    · intro k hk
      rw [hT] at hk
      exact award_establishes_tracks clock s k hk
  exact ⟨he, congrArg S.writes he⟩

/-- C6 witness: in the concrete state with module `m` and track `t`
completed, the grant condition holds and the second run changes nothing. -/
theorem C6_awardAchievements_idempotent_witness :
    awardAchievements cClockT (awardAchievements cClockT exAwardState) =
      awardAchievements cClockT exAwardState ∧
    (awardAchievements cClockT (awardAchievements cClockT exAwardState)).writes =
      (awardAchievements cClockT exAwardState).writes :=
  C6_awardAchievements_idempotent cClockT exAwardState
    (Or.inl (by simp only [grantCondition, exAwardState, modulesMap]; decide))

/-- C10 witness: on the example catalog, the rank counting distance to the
module root makes the parent ascent fuel-complete at `m/u`, and the rank
counting height makes the descent fuel-complete at the root `modules`. -/
theorem C10_termination_witness :
    getModuleRoot exCat 3 "m/u" ≠ RunRes.fuelOut ∧
    getChildPathIds exCat 3 "modules" ≠ RunRes.fuelOut := by
  constructor
  · apply C10_termination.1 exCat (fun id => if id = "m/u" then 1 else 0)
    · intro id n p pn h1 h2 h3 h4 h5
      by_cases e1 : id = "modules"
      · subst e1
        simp [exCat, alGet] at h1
        rw [← h1] at h2
        simp at h2
      · by_cases e2 : id = "m"
        · subst e2
          simp [exCat, alGet] at h1
          rw [← h1] at h2
          simp at h2
          exact absurd h2.symm h4
        · by_cases e3 : id = "m/u"
          · subst e3
            simp [exCat, alGet] at h1
            rw [← h1] at h2
            simp at h2
            subst h2
            simp [e2]
          · simp [exCat, alGet, Ne.symm e1, Ne.symm e2, Ne.symm e3] at h1
    · decide
  · apply C10_termination.2.1 exCat
      (fun id => if id = "modules" then 2 else if id = "m" then 1 else 0)
    · intro id n cs c h1 h2 h3
      by_cases e1 : id = "modules"
      · subst e1
        simp [exCat, alGet] at h1
        rw [← h1] at h2
        simp at h2
        subst h2
        simp at h3
        subst h3
        decide
      · by_cases e2 : id = "m"
        · subst e2
          simp [exCat, alGet] at h1
          rw [← h1] at h2
          simp at h2
          subst h2
          simp at h3
          subst h3
          decide
        · by_cases e3 : id = "m/u"
          · subst e3
            simp [exCat, alGet] at h1
            rw [← h1] at h2
            simp at h2
          · simp [exCat, alGet, Ne.symm e1, Ne.symm e2, Ne.symm e3] at h1
    · decide

/-! C7: reconciliation replays local progress before the remote snapshot can
overwrite it. In initUserProgressData (lines 358-395) the replay loop runs
synchronously before the GET is even dispatched, and the overwrite of the
in-memory state happens only in the GET subscription callbacks; on a fetch
failure the pre-existing local snapshot is published and startPage still
runs. -/

theorem updateFieldT_auth_events (st : ProgressState) (lt id : String) (fv : Learning) :
    ∃ st2 ch, updateFieldT true st lt id fv
        = (st2, [Ev.localWrite st2, Ev.remotePut lt id ch]) ∧
      fieldsIncl fv ch :=
  ⟨_, _, rfl, fieldsIncl_merge _ _⟩

theorem replayRecord_events_mono (acc2 : ProgressState × List Ev) (ltk : String)
    (idEntry : String × Learning) (e : Ev) (h : e ∈ acc2.2) :
    e ∈ (replayRecord acc2 ltk idEntry).2 := by
  unfold replayRecord
  exact List.mem_append_left _ h

theorem foldl_replayRecord_events_mono (ltk : String) :
    ∀ (m : List (String × Learning)) (acc : ProgressState × List Ev) (e : Ev),
      e ∈ acc.2 →
      e ∈ (List.foldl (fun acc2 idEntry => replayRecord acc2 ltk idEntry) acc m).2 := by
  intro m
  induction m with
  | nil => intro acc e h; exact h
  | cons a m ih =>
    intro acc e h
    rw [List.foldl_cons]
    exact ih _ _ (replayRecord_events_mono _ _ _ _ h)

theorem replayType_events_mono (acc : ProgressState × List Ev)
    (ltEntry : String × List (String × Learning)) (e : Ev) (h : e ∈ acc.2) :
    e ∈ (replayType acc ltEntry).2 := by
  obtain ⟨ltk, m⟩ := ltEntry
  exact foldl_replayRecord_events_mono ltk m acc e h

theorem foldl_replayType_events_mono :
    ∀ (l : List (String × List (String × Learning)))
      (acc : ProgressState × List Ev) (e : Ev),
      e ∈ acc.2 → e ∈ (List.foldl replayType acc l).2 := by
  intro l
  induction l with
  | nil => intro acc e h; exact h
  | cons a l ih =>
    intro acc e h
    rw [List.foldl_cons]
    exact ih _ _ (replayType_events_mono _ _ _ h)

theorem foldl_replayRecord_establishes (ltk : String) :
    ∀ (m : List (String × Learning)) (acc : ProgressState × List Ev)
      (id : String) (rec : Learning), (id, rec) ∈ m →
      ∃ ch, Ev.remotePut ltk id ch ∈
          (List.foldl (fun acc2 idEntry => replayRecord acc2 ltk idEntry) acc m).2 ∧
        fieldsIncl rec ch := by
  intro m
  induction m with
  | nil => intro _ _ _ h; cases h
  | cons a m ih =>
    intro acc id rec hmem
    rw [List.foldl_cons]
    rcases List.mem_cons.mp hmem with heq | hm2
    · obtain ⟨st2, ch, hupd, hincl⟩ := updateFieldT_auth_events acc.1 ltk id rec
      refine ⟨ch, ?_, hincl⟩
      apply foldl_replayRecord_events_mono
      rw [← heq]
      unfold replayRecord
      rw [hupd]
      simp
    · exact ih _ id rec hm2

theorem foldl_replayType_establishes :
    ∀ (l : List (String × List (String × Learning)))
      (acc : ProgressState × List Ev) (ltk : String)
      (m : List (String × Learning)) (id : String) (rec : Learning),
      (ltk, m) ∈ l → (id, rec) ∈ m →
      ∃ ch, Ev.remotePut ltk id ch ∈ (List.foldl replayType acc l).2 ∧
        fieldsIncl rec ch := by
  intro l
  induction l with
  | nil => intro _ _ _ _ _ h; cases h
  | cons a l ih =>
    intro acc ltk m id rec hmem hm2
    rw [List.foldl_cons]
    rcases List.mem_cons.mp hmem with heq | hl2
    · subst heq
      obtain ⟨ch, hin, hincl⟩ := foldl_replayRecord_establishes ltk m acc id rec hm2
      refine ⟨ch, ?_, hincl⟩
      apply foldl_replayType_events_mono
      exact hin
    · exact ih _ ltk m id rec hl2 hm2

theorem replayRecord_no_publish (acc2 : ProgressState × List Ev) (ltk : String)
    (idEntry : String × Learning) (ps : ProgressState)
    (h : Ev.publish ps ∉ acc2.2) :
    Ev.publish ps ∉ (replayRecord acc2 ltk idEntry).2 := by
  unfold replayRecord
  intro hmem
  rcases List.mem_append.mp hmem with h1 | h2
  · exact h h1
  · obtain ⟨st2, ch, hupd, _⟩ :=
      updateFieldT_auth_events acc2.1 ltk idEntry.1 idEntry.2
    rw [hupd] at h2
    simp at h2

theorem foldl_replayRecord_no_publish (ltk : String) :
    ∀ (m : List (String × Learning)) (acc : ProgressState × List Ev)
      (ps : ProgressState), Ev.publish ps ∉ acc.2 →
      Ev.publish ps ∉
        (List.foldl (fun acc2 idEntry => replayRecord acc2 ltk idEntry) acc m).2 := by
  intro m
  induction m with
  | nil => intro acc ps h; exact h
  | cons a m ih =>
    intro acc ps h
    rw [List.foldl_cons]
    exact ih _ _ (replayRecord_no_publish _ _ _ _ h)

theorem foldl_replayType_no_publish :
    ∀ (l : List (String × List (String × Learning)))
      (acc : ProgressState × List Ev) (ps : ProgressState),
      Ev.publish ps ∉ acc.2 → Ev.publish ps ∉ (List.foldl replayType acc l).2 := by
  intro l
  induction l with
  | nil => intro acc ps h; exact h
  | cons a l ih =>
    intro acc ps h
    rw [List.foldl_cons]
    apply ih
    obtain ⟨ltk, m⟩ := a
    exact foldl_replayRecord_no_publish ltk m acc ps h

theorem replay_no_publish (st0 existing : ProgressState) :
    ∀ ps, Ev.publish ps ∉ (replayEntries st0 existing).2 := by
  intro ps
  unfold replayEntries
  exact foldl_replayType_no_publish existing _ ps (by simp)

/-- C7: on a session initialization transitioning from anonymous to
authenticated, every locally stored (type, id, fields) entry is replayed
through update — so a remote PUT carrying its fields is dispatched — inside
the replay prefix of the trace, which contains no publish event; the fetched
remote snapshot is published only after that prefix (and after the GET
dispatch); and on fetch failure the pre-existing local snapshot is published
and startPage is still called. -/
theorem C7_replay_before_overwrite (st0 existing : ProgressState) (pageId : String)
    (fetch : Option ProgressState) :
    ((∀ res, fetch = some res →
        (initUserProgressDataT true true st0 existing pageId fetch).2 =
          (replayEntries st0 existing).2 ++
            [Ev.remoteGet, Ev.localWrite res, Ev.publish res,
             Ev.startPageCalled pageId]) ∧
      (fetch = none →
        (initUserProgressDataT true true st0 existing pageId fetch).2 =
          (replayEntries st0 existing).2 ++
            [Ev.remoteGet, Ev.publish existing, Ev.startPageCalled pageId])) ∧
    (∀ lt m id r, alGet existing lt = some m → alGet m id = some r →
      ∃ ch, Ev.remotePut lt id ch ∈ (replayEntries st0 existing).2 ∧
        fieldsIncl r ch) ∧
    (∀ ps, Ev.publish ps ∉ (replayEntries st0 existing).2) ∧
    (fetch = none →
      (initUserProgressDataT true true st0 existing pageId fetch).1 = existing ∧
      Ev.publish existing ∈ (initUserProgressDataT true true st0 existing pageId fetch).2 ∧
      Ev.startPageCalled pageId ∈
        (initUserProgressDataT true true st0 existing pageId fetch).2) := by
  refine ⟨⟨?_, ?_⟩, ?_, ?_, ?_⟩
  · intro res hres
    subst hres
    rfl
  · intro hres
    subst hres
    rfl
  · intro lt m id r h1 h2
    exact foldl_replayType_establishes existing _ lt m id r (alGet_mem h1) (alGet_mem h2)
  · exact replay_no_publish st0 existing
  · intro hres
    subst hres
    refine ⟨rfl, ?_, ?_⟩
    · apply List.mem_append_right
      simp
    · apply List.mem_append_right
      simp

/-! C2: getModuleProgress stays in [0,100] with the documented defaults. The
result is 0 for an unknown page id (line 154) and for an unknown active item
(line 168, which is also the only way the active path can be empty, so the
count fallback never divides by zero); every other result passes through the
clamp of lines 216 and 218; and on a catalog without any time estimate the
count-based fallback of line 218 is the value computed. -/

theorem bind_ok {α β : Type} {x : RunRes α} {f : α → RunRes β} {v : β}
    (h : RunRes.bind x f = RunRes.ok v) :
    ∃ a, x = RunRes.ok a ∧ f a = RunRes.ok v := by
  cases x with
  | ok a => exact ⟨a, rfl, h⟩
  | typeError => simp [RunRes.bind] at h
  | fuelOut => simp [RunRes.bind] at h

theorem progressValue_bounds (base : ℚ × ℚ) (stats : ℚ × Nat) (len : Nat) :
    0 ≤ progressValue base stats len ∧ progressValue base stats len ≤ 100 := by
  constructor
  · simp only [progressValue, jsClamp]
    split <;> exact le_min (by norm_num) (le_max_left _ _)
  · simp only [progressValue, jsClamp]
    split <;> exact min_le_left _ _

theorem chainAscend_suffix (md : ModuleData) :
    ∀ (fuel : Nat) (p : Option String) (ids l : List String),
      chainAscend md fuel p ids = RunRes.ok l → ∃ pre, l = pre ++ ids := by
  intro fuel
  induction fuel with
  | zero => intro p ids l h; simp [chainAscend] at h
  | succ f ih =>
    intro p ids l h
    simp only [chainAscend] at h
    split at h
    · injection h with hh
      exact ⟨[], by simp [← hh]⟩
    · rename_i q
      split at h
      · injection h with hh
        exact ⟨[], by simp [← hh]⟩
      · split at h
        · injection h with hh
          exact ⟨[], by simp [← hh]⟩
        · split at h
          · simp at h
          · rename_i nd heq
            obtain ⟨pre, hpre⟩ := ih nd.parent (q :: ids) l h
            exact ⟨pre ++ [q], by simp [hpre]⟩

theorem getActivePathIds_ok_nil (md : ModuleData) (fuel : Nat) (x : String)
    (h : getActivePathIds md fuel x = RunRes.ok []) : alGet md x = none := by
  cases h1 : alGet md x with
  | none => rfl
  | some node =>
    exfalso
    unfold getActivePathIds at h
    rw [h1] at h
    obtain ⟨cr, hcr, h⟩ := bind_ok h
    obtain ⟨ids, hids, h⟩ := bind_ok h
    obtain ⟨subs, hsubs, h⟩ := bind_ok h
    injection h with hnil
    have hids_nil : ids = [] := (List.append_eq_nil.mp hnil).1
    subst hids_nil
    split at hids
    · injection hids with hh
      simp at hh
    · split at hids
      · obtain ⟨pre, hpre⟩ := chainAscend_suffix md fuel _ [cr] [] hids
        simp at hpre
      · injection hids with hh
        simp at hh

theorem baseAscend_const (md : ModuleData)
    (hmin : ∀ k n, alGet md k = some n → n.minutes = none) :
    ∀ (fuel : Nat) (p : Option String) (acc b : ℚ × ℚ),
      baseAscend md fuel p acc = RunRes.ok b → b = acc := by
  intro fuel
  induction fuel with
  | zero => intro p acc b h; simp [baseAscend] at h
  | succ f ih =>
    intro p acc b h
    simp only [baseAscend] at h
    split at h
    · injection h with hh
      exact hh.symm
    · rename_i q
      split at h
      · injection h with hh
        exact hh.symm
      · split at h
        · injection h with hh
          exact hh.symm
        · split at h
          · simp at h
          · rename_i pd heq
            rw [hmin q pd heq] at h
            exact ih pd.parent acc b h

/-- C2: getModuleProgress always yields an integer in [0,100]: an unknown id
yields 0; every successful run is clamped into the range; an empty active
path yields 0 rather than a division fault; and on a catalog with no time
estimate at all the value is exactly the count-of-completed-over-path-length
fallback. -/
theorem C2_moduleProgress_range :
    (∀ (md : ModuleData) (fuel : Nat) (st : ProgressState) (pageId : String),
      alGet md pageId = none → getModuleProgress md fuel st pageId = RunRes.ok 0) ∧
    (∀ (md : ModuleData) (fuel : Nat) (st : ProgressState) (pageId : String) (v : ℤ),
      getModuleProgress md fuel st pageId = RunRes.ok v → 0 ≤ v ∧ v ≤ 100) ∧
    (∀ (md : ModuleData) (fuel : Nat) (st : ProgressState) (pageId : String),
      getActivePathIds md fuel (resolveActive md st pageId) = RunRes.ok [] →
      getModuleProgress md fuel st pageId = RunRes.ok 0) ∧
    (∀ (md : ModuleData) (fuel : Nat) (st : ProgressState) (pageId : String)
      (path : List String) (moduleId : Option String) (v : ℤ),
      (∀ k n, alGet md k = some n → n.minutes = none ∧ n.remaining = none) →
      (alGet md pageId).isSome = true →
      (alGet md (resolveActive md st pageId)).isSome = true →
      getActivePathIds md fuel (resolveActive md st pageId) = RunRes.ok path →
      getModuleRoot md fuel pageId = RunRes.ok moduleId →
      getModuleProgress md fuel st pageId = RunRes.ok v →
      v = jsClamp (jsRound (100 *
        ((userCompletedStats md st (jsKey moduleId) path).2 : ℚ) /
        (path.length : ℚ)))) := by
  refine ⟨?_, ?_, ?_, ?_⟩
  · intro md fuel st pageId hm
    unfold getModuleProgress
    rw [hm]
  · intro md fuel st pageId v hres
    unfold getModuleProgress at hres
    cases h1 : alGet md pageId with
    | none =>
      rw [h1] at hres
      cases hres
      norm_num
    | some pn =>
      rw [h1] at hres
      obtain ⟨l, _, hres⟩ := bind_ok hres
      cases h2 : alGet md (resolveActive md st pageId) with
      | none =>
        rw [h2] at hres
        cases hres
        norm_num
      | some cpd =>
        rw [h2] at hres
        obtain ⟨cr, _, hres⟩ := bind_ok hres
        obtain ⟨base, _, hres⟩ := bind_ok hres
        obtain ⟨mid, _, hres⟩ := bind_ok hres
        cases hres
        exact progressValue_bounds _ _ _
  · intro md fuel st pageId hpath
    have hnone := getActivePathIds_ok_nil md fuel _ hpath
    unfold getModuleProgress
    cases h1 : alGet md pageId with
    | none => rfl
    | some pn =>
      simp only [hpath, RunRes.bind, hnone]
  · intro md fuel st pageId path moduleId v hmin hpage hactive hpath hroot hres
    obtain ⟨pn, hpn⟩ := Option.isSome_iff_exists.mp hpage
    obtain ⟨cpd, hcpd⟩ := Option.isSome_iff_exists.mp hactive
    unfold getModuleProgress at hres
    simp only [hpn, hpath, RunRes.bind, hcpd] at hres
    obtain ⟨cr, hcr, hres⟩ := bind_ok hres
    obtain ⟨base, hbase, hres⟩ := bind_ok hres
    obtain ⟨mid, hmid, hres⟩ := bind_ok hres
    rw [hroot] at hmid
    have hmideq : moduleId = mid := by cases hmid; rfl
    subst hmideq
    have hbase0 : base = ((0 : ℚ), (0 : ℚ)) := by
      cases h2 : alGet md cr with
      | none =>
        rw [h2] at hbase
        simp at hbase
      | some crn =>
        simp only [h2, (hmin cr crn h2).2] at hbase
        by_cases h3 : optTruthy crn.parent = true
        · rw [if_pos h3] at hbase
          exact baseAscend_const md (fun k n hk => (hmin k n hk).1) fuel
            crn.parent _ base hbase
        · rw [if_neg h3] at hbase
          injection hbase with hh
          exact hh.symm
    subst hbase0
    injection hres with hv
    rw [← hv]
    simp only [progressValue]
    norm_num

/-- C2 witness: on the example catalogs, an unknown id yields 0; the fully
completed timed module yields 100, inside the range; the unknown id also has
an empty active path and yields 0 through the empty-path conjunct; and on the
estimate-free catalog the value 33 equals the count fallback formula for the
path of three nodes with one completed. -/
theorem C2_moduleProgress_range_witness :
    getModuleProgress exCat 9 [] "zz" = RunRes.ok 0 ∧
    (0 ≤ (100 : ℤ) ∧ (100 : ℤ) ≤ 100) ∧
    getModuleProgress exCat 9 [] "zz" = RunRes.ok 0 ∧
    (33 : ℤ) = jsClamp (jsRound (100 *
      ((userCompletedStats exCatNoTime exStCount (jsKey (some "n"))
        ["n", "n/a", "n/b"]).2 : ℚ) /
      ((["n", "n/a", "n/b"] : List String).length : ℚ))) := by
  refine ⟨C2_moduleProgress_range.1 exCat 9 [] "zz" rfl,
    C2_moduleProgress_range.2.1 exCat 9 exStDone "m/u" 100 (by decide),
    C2_moduleProgress_range.2.2.1 exCat 9 [] "zz" rfl,
    C2_moduleProgress_range.2.2.2 exCatNoTime 9 exStCount "n/a"
      ["n", "n/a", "n/b"] (some "n") 33 ?_ rfl rfl (by decide) (by decide) (by decide)⟩
  intro k n hk
  simp only [exCatNoTime, alGet] at hk
  split at hk
  · injection hk with h2
    subst h2
    exact ⟨rfl, rfl⟩
  · split at hk
    · injection hk with h2
      subst h2
      exact ⟨rfl, rfl⟩
    · split at hk
      · injection hk with h2
        subst h2
        exact ⟨rfl, rfl⟩
      · split at hk
        · injection hk with h2
          subst h2
          exact ⟨rfl, rfl⟩
        · cases hk

/-! C4: record monotonicity under the public write path. The store merges
fields unconditionally (last write wins), so the original claim fails — a
second startPage overwrites started_at, see the counterexample — but the
amended invariant holds: under a nondecreasing wall clock, completed_at once
set is never cleared and never moves lexicographically earlier, and
started_at once set is never cleared. -/

theorem charsLtB_irrefl : ∀ l : List Char, charsLtB l l = false := by
  intro l
  induction l with
  | nil => rfl
  | cons c cs ih => simp [charsLtB, ih, lt_irrefl]

theorem jsLtB_irrefl (a : String) : jsLtB a a = false := charsLtB_irrefl a.data

theorem evolutionFrom_refl (clock : Nat → String) (n : Nat) (st : ProgressState) :
    evolutionFrom clock n st st := by
  intro lt id
  exact ⟨Or.inl rfl, fun h => h⟩

theorem evolutionFrom_trans (clock : Nat → String) (n : Nat)
    {st1 st2 st3 : ProgressState} (h1 : evolutionFrom clock n st1 st2)
    (h2 : evolutionFrom clock n st2 st3) : evolutionFrom clock n st1 st3 := by
  intro lt id
  obtain ⟨c1, s1⟩ := h1 lt id
  obtain ⟨c2, s2⟩ := h2 lt id
  constructor
  · rcases c2 with heq | hex
    · rw [heq]
      exact c1
    · exact Or.inr hex
  · exact fun h => s2 (s1 h)

theorem evolutionFrom_mono (clock : Nat → String) {m n : Nat}
    {st st2 : ProgressState} (hmn : m ≤ n) (h : evolutionFrom clock n st st2) :
    evolutionFrom clock m st st2 := by
  intro lt id
  obtain ⟨c1, s1⟩ := h lt id
  refine ⟨?_, s1⟩
  rcases c1 with heq | ⟨i, hi, he⟩
  · exact Or.inl heq
  · exact Or.inr ⟨i, by omega, he⟩

theorem stampEvolution_refl (clock : Nat → String) (s : S) :
    stampEvolution clock s s :=
  ⟨le_refl _, evolutionFrom_refl clock s.tick s.progress⟩

theorem stampEvolution_trans (clock : Nat → String) {s s1 s2 : S}
    (h1 : stampEvolution clock s s1) (h2 : stampEvolution clock s1 s2) :
    stampEvolution clock s s2 := by
  obtain ⟨t1, e1⟩ := h1
  obtain ⟨t2, e2⟩ := h2
  exact ⟨le_trans t1 t2, evolutionFrom_trans clock s.tick e1
    (evolutionFrom_mono clock t1 e2)⟩

theorem stampsOk_mono (clock : Nat → String) (p : ProgressState) (t t2 : Nat)
    (w w2 : List UpdateCall) (h : stampsOk clock ⟨p, t, w⟩) (hle : t ≤ t2) :
    stampsOk clock ⟨p, t2, w2⟩ := by
  intro lt id
  obtain ⟨h1, h2⟩ := h lt id
  constructor <;> intro u hu
  · obtain ⟨i, hi, he⟩ := h1 u hu
    have hi2 : i < t := hi
    exact ⟨i, show i < t2 by omega, he⟩
  · obtain ⟨i, hi, he⟩ := h2 u hu
    have hi2 : i < t := hi
    exact ⟨i, show i < t2 by omega, he⟩

theorem updateFieldS_stampsOk (clock : Nat → String) (s : S) (lt id : String)
    (fv : Learning)
    (hst : ∀ t, fv.started_at = some t → ∃ i, i < s.tick ∧ t = clock i)
    (hco : ∀ t, fv.completed_at = some t → ∃ i, i < s.tick ∧ t = clock i)
    (hs : stampsOk clock s) :
    stampsOk clock (updateFieldS s lt id fv) := by
  intro lt2 id2
  by_cases hk : lt2 = lt ∧ id2 = id
  · obtain ⟨hk1, hk2⟩ := hk
    subst hk1
    subst hk2
    constructor <;> intro t ht <;> rw [getRecord_updateFieldS_self] at ht
    · cases hf : fv.started_at with
      | some u =>
        simp only [mergeRecord, optOr, hf] at ht
        injection ht with hh
        subst hh
        exact hst _ hf
      | none =>
        simp only [mergeRecord, optOr, hf] at ht
        exact (hs lt2 id2).1 t ht
    · cases hf : fv.completed_at with
      | some u =>
        simp only [mergeRecord, optOr, hf] at ht
        injection ht with hh
        subst hh
        exact hco _ hf
      | none =>
        simp only [mergeRecord, optOr, hf] at ht
        exact (hs lt2 id2).2 t ht
  · have hor : lt2 ≠ lt ∨ id2 ≠ id := by tauto
    constructor <;> intro t ht <;>
      rw [getRecord_updateFieldS_ne s lt id lt2 id2 fv hor] at ht
    · exact (hs lt2 id2).1 t ht
    · exact (hs lt2 id2).2 t ht

theorem updateFieldS_evolution (clock : Nat → String) (n : Nat) (s : S)
    (lt id : String) (fv : Learning)
    (hco : ∀ t, fv.completed_at = some t → ∃ i, n ≤ i ∧ t = clock i) :
    evolutionFrom clock n s.progress (updateFieldS s lt id fv).progress := by
  intro lt2 id2
  by_cases hk : lt2 = lt ∧ id2 = id
  · obtain ⟨hk1, hk2⟩ := hk
    subst hk1
    subst hk2
    constructor
    · cases hf : fv.completed_at with
      | none =>
        left
        rw [getRecord_updateFieldS_self]
        simp [mergeRecord, optOr, hf]
      | some u =>
        right
        obtain ⟨i, hi, he⟩ := hco u hf
        refine ⟨i, hi, ?_⟩
        rw [getRecord_updateFieldS_self]
        simp [mergeRecord, optOr, hf, he]
    · intro hstarted
      rw [getRecord_updateFieldS_self]
      cases hf : fv.started_at with
      | none =>
        simp only [mergeRecord, optOr, hf]
        exact hstarted
      | some u => simp [mergeRecord, optOr, hf]
  · have hor : lt2 ≠ lt ∨ id2 ≠ id := by tauto
    rw [getRecord_updateFieldS_ne s lt id lt2 id2 fv hor]
    exact ⟨Or.inl rfl, fun h => h⟩

theorem stateMono_of (clock : Nat → String) (s s2 : S) (hclock : clockMono clock)
    (hs : stampsOk clock s) (he : stampEvolution clock s s2) : stateMono s s2 := by
  intro lt id
  obtain ⟨htick, hev⟩ := he
  obtain ⟨hev1, hev2⟩ := hev lt id
  constructor
  · intro t ht
    rcases hev1 with heq | ⟨i, hi, hsome⟩
    · exact ⟨t, by rw [heq, ht], jsLtB_irrefl t⟩
    · refine ⟨clock i, hsome, ?_⟩
      obtain ⟨j, hj, hje⟩ := (hs lt id).2 t ht
      rw [hje]
      exact hclock j i (by omega)
  · exact hev2

theorem stampedWrite_evolve (clock : Nat → String) (s0 s : S) (lt id : String)
    (fv : Learning) (htick : s0.tick ≤ s.tick) (hprog : s.progress = s0.progress)
    (hst : ∀ t, fv.started_at = some t → ∃ i, i < s.tick ∧ t = clock i)
    (hco : ∀ t, fv.completed_at = some t →
      ∃ i, s0.tick ≤ i ∧ i < s.tick ∧ t = clock i)
    (hs : stampsOk clock s) :
    stampsOk clock (updateFieldS s lt id fv) ∧
    stampEvolution clock s0 (updateFieldS s lt id fv) := by
  constructor
  · refine updateFieldS_stampsOk clock s lt id fv hst ?_ hs
    intro t ht
    obtain ⟨i, _, h2, h3⟩ := hco t ht
    exact ⟨i, h2, h3⟩
  · constructor
    · rw [updateFieldS_tick]
      exact htick
    · have hev := updateFieldS_evolution clock s0.tick s lt id fv
        (fun t ht => by
          obtain ⟨i, h1, _, h3⟩ := hco t ht
          exact ⟨i, h1, h3⟩)
      rw [hprog] at hev
      exact hev

theorem skipStep_evolve (clock : Nat → String) (s : S) (k : Nat)
    (hs : stampsOk clock s) :
    stampsOk clock ({ s with tick := s.tick + k }) ∧
    stampEvolution clock s ({ s with tick := s.tick + k }) := by
  refine ⟨?_, ?_, ?_⟩
  · exact stampsOk_mono clock s.progress s.tick (s.tick + k) s.writes s.writes hs
      (by omega)
  · show s.tick ≤ s.tick + k
    omega
  · exact evolutionFrom_refl clock s.tick s.progress

theorem startPage_evolve (md : ModuleData) (td : TrackData) (fuel : Nat)
    (clock : Nat → String) (pageId : String) (s : S) (hs : stampsOk clock s) :
    stampsOk clock (startPage md td fuel clock pageId s) ∧
    stampEvolution clock s (startPage md td fuel clock pageId s) := by
  unfold startPage
  cases hlt : getLearningType md td fuel pageId with
  | ok lt =>
    have hsB : stampsOk clock ({ s with tick := s.tick + 1 }) :=
      stampsOk_mono clock s.progress s.tick (s.tick + 1) s.writes s.writes hs
        (by omega)
    have hw1 := stampedWrite_evolve clock s ({ s with tick := s.tick + 1 })
      (jsKey lt) pageId { started_at := some (clock s.tick) }
      (Nat.le_succ _) rfl
      (fun t ht => by
        injection ht with hh
        exact ⟨s.tick, by show s.tick < s.tick + 1; omega, hh.symm⟩)
      (fun t ht => by cases ht)
      hsB
    by_cases hm : lt = some "modules"
    · simp only [hm, if_pos]
      obtain ⟨hA, hB⟩ := hw1
      rw [hm] at hA hB
      set s1 := updateFieldS { s with tick := s.tick + 1 } (jsKey (some "modules"))
        pageId { started_at := some (clock s.tick) } with hs1
      have hsB2 : stampsOk clock ({ s1 with tick := s1.tick + 1 }) := by
        have := stampsOk_mono clock s1.progress s1.tick (s1.tick + 1)
          s1.writes s1.writes ?_ (by omega)
        · exact this
        · exact hA
      have hw2 := stampedWrite_evolve clock s1 ({ s1 with tick := s1.tick + 1 })
        "units" pageId { started_at := some (clock s1.tick) }
        (Nat.le_succ _) rfl
        (fun t ht => by
          injection ht with hh
          exact ⟨s1.tick, by show s1.tick < s1.tick + 1; omega, hh.symm⟩)
        (fun t ht => by cases ht)
        hsB2
      exact ⟨hw2.1, stampEvolution_trans clock hB hw2.2⟩
    · simp only [hm, if_neg, if_false]
      exact hw1
  | typeError => exact ⟨hs, stampEvolution_refl clock s⟩
  | fuelOut => exact ⟨hs, stampEvolution_refl clock s⟩

theorem awardStep_evolve (clock : Nat → String) (al : Bool)
    (cap : List (String × Learning)) (s : S) (trackId : String)
    (hs : stampsOk clock s) :
    stampsOk clock (awardStep clock al cap s trackId) ∧
    stampEvolution clock s (awardStep clock al cap s trackId) := by
  unfold awardStep
  split
  · exact ⟨hs, stampEvolution_refl clock s⟩
  · exact stampedWrite_evolve clock s ({ s with tick := s.tick + 1 })
      "achievements" trackId
      { achievement_type := some "standard", earned_at := some (clock s.tick) }
      (Nat.le_succ _) rfl
      (fun t ht => by cases ht)
      (fun t ht => by cases ht)
      (stampsOk_mono clock s.progress s.tick (s.tick + 1) s.writes s.writes hs
        (by omega))

theorem foldl_awardStep_evolve (clock : Nat → String) (al : Bool)
    (cap : List (String × Learning)) :
    ∀ (l : List String) (s : S), stampsOk clock s →
      stampsOk clock (List.foldl (awardStep clock al cap) s l) ∧
      stampEvolution clock s (List.foldl (awardStep clock al cap) s l) := by
  intro l
  induction l with
  | nil => intro s hs; exact ⟨hs, stampEvolution_refl clock s⟩
  | cons a l ih =>
    intro s hs
    rw [List.foldl_cons]
    obtain ⟨h1, h2⟩ := awardStep_evolve clock al cap s a hs
    obtain ⟨h3, h4⟩ := ih _ h1
    exact ⟨h3, stampEvolution_trans clock h2 h4⟩

theorem awardAchievements_evolve (clock : Nat → String) (s : S)
    (hs : stampsOk clock s) :
    stampsOk clock (awardAchievements clock s) ∧
    stampEvolution clock s (awardAchievements clock s) := by
  unfold awardAchievements
  have hstep : ∀ s1 : S, stampsOk clock s1 → stampEvolution clock s s1 →
      stampsOk clock (List.foldl
        (awardStep clock ((alGet s.progress "achievements").isSome)
          (achMap s.progress)) s1
        (((tracksMap s.progress).filter
          (fun kv => optTruthy kv.2.completed_at)).map Prod.fst)) ∧
      stampEvolution clock s (List.foldl
        (awardStep clock ((alGet s.progress "achievements").isSome)
          (achMap s.progress)) s1
        (((tracksMap s.progress).filter
          (fun kv => optTruthy kv.2.completed_at)).map Prod.fst)) := by
    intro s1 h1 h2
    obtain ⟨hA, hB⟩ := foldl_awardStep_evolve clock
      ((alGet s.progress "achievements").isSome) (achMap s.progress) _ s1 h1
    exact ⟨hA, stampEvolution_trans clock h2 hB⟩
  apply hstep
  all_goals split_ifs with hc hg
  · exact hs
  · exact (stampedWrite_evolve clock s ({ s with tick := s.tick + 1 })
      "achievements" "grand-opening"
      { achievement_type := some "standard", earned_at := some (clock s.tick) }
      (Nat.le_succ _) rfl (fun t ht => by cases ht) (fun t ht => by cases ht)
      (stampsOk_mono clock s.progress s.tick (s.tick + 1) s.writes s.writes hs
        (by omega))).1
  · exact hs
  · exact stampEvolution_refl clock s
  · exact (stampedWrite_evolve clock s ({ s with tick := s.tick + 1 })
      "achievements" "grand-opening"
      { achievement_type := some "standard", earned_at := some (clock s.tick) }
      (Nat.le_succ _) rfl (fun t ht => by cases ht) (fun t ht => by cases ht)
      (stampsOk_mono clock s.progress s.tick (s.tick + 1) s.writes s.writes hs
        (by omega))).2
  · exact stampEvolution_refl clock s

theorem completeTracksStep_evolve (clock : Nat → String) (kv : String × Track)
    (s : S) (hs : stampsOk clock s) :
    stampsOk clock (completeTracksStep clock s kv) ∧
    stampEvolution clock s (completeTracksStep clock s kv) := by
  unfold completeTracksStep
  split
  · exact ⟨hs, stampEvolution_refl clock s⟩
  · rename_i cs hcs
    by_cases hlen : cs.length = (List.filter
        (fun m => optTruthy (getRecord s.progress "modules" m).completed_at) cs).length
    · simp only [if_pos hlen]
      by_cases hb1 : optTruthy (getRecord s.progress "tracks" kv.1).started_at = true
      · simp only [if_pos hb1]
        by_cases hb2 :
            optTruthy (getRecord s.progress "tracks" kv.1).completed_at = true
        · simp only [if_pos hb2]
          refine stampedWrite_evolve clock s _ "tracks" kv.1 _ (le_refl _) rfl
            ?_ ?_ hs
          · intro t ht
            cases ht
          · intro t ht
            cases ht
        · simp only [if_neg hb2]
          refine stampedWrite_evolve clock s _ "tracks" kv.1 _ (Nat.le_succ _) rfl
            ?_ ?_ (stampsOk_mono clock s.progress s.tick (s.tick + 1)
              s.writes s.writes hs (by omega))
          · intro t ht
            simp at ht
          · intro t ht
            simp only [] at ht
            injection ht with hh
            exact ⟨s.tick, le_refl _, by show s.tick < s.tick + 1; omega, hh.symm⟩
      · simp only [if_neg hb1]
        by_cases hb2 :
            optTruthy (getRecord s.progress "tracks" kv.1).completed_at = true
        · simp only [if_pos hb2]
          refine stampedWrite_evolve clock s _ "tracks" kv.1 _ (Nat.le_succ _) rfl
            ?_ ?_ (stampsOk_mono clock s.progress s.tick (s.tick + 1)
              s.writes s.writes hs (by omega))
          · intro t ht
            injection ht with hh
            exact ⟨s.tick, by show s.tick < s.tick + 1; omega, hh.symm⟩
          · intro t ht
            cases ht
        · simp only [if_neg hb2]
          refine stampedWrite_evolve clock s _ "tracks" kv.1 _
            (show s.tick ≤ s.tick + 1 + 1 by omega) rfl ?_ ?_
            (stampsOk_mono clock s.progress s.tick (s.tick + 1 + 1)
              s.writes s.writes hs (by omega))
          · intro t ht
            simp only [] at ht
            injection ht with hh
            exact ⟨s.tick, by show s.tick < s.tick + 1 + 1; omega, hh.symm⟩
          · intro t ht
            simp only [] at ht
            injection ht with hh
            exact ⟨s.tick + 1, by omega,
              by show s.tick + 1 < s.tick + 1 + 1; omega, hh.symm⟩
    · simp only [if_neg hlen]
      exact ⟨hs, stampEvolution_refl clock s⟩

theorem foldl_tracksStep_evolve (clock : Nat → String) :
    ∀ (l : List (String × Track)) (s : S), stampsOk clock s →
      stampsOk clock
        (List.foldl (fun s2 kv => completeTracksStep clock s2 kv) s l) ∧
      stampEvolution clock s
        (List.foldl (fun s2 kv => completeTracksStep clock s2 kv) s l) := by
  intro l
  induction l with
  | nil => intro s hs; exact ⟨hs, stampEvolution_refl clock s⟩
  | cons kv l ih =>
    intro s hs
    rw [List.foldl_cons]
    obtain ⟨h1, h2⟩ := completeTracksStep_evolve clock kv s hs
    obtain ⟨h3, h4⟩ := ih _ h1
    exact ⟨h3, stampEvolution_trans clock h2 h4⟩

theorem completeTracks_evolve (td : TrackData) (clock : Nat → String) (s : S)
    (hs : stampsOk clock s) :
    stampsOk clock (completeTracks td clock s) ∧
    stampEvolution clock s (completeTracks td clock s) :=
  foldl_tracksStep_evolve clock td s hs

theorem completeModule_evolve (md : ModuleData) (fuel : Nat)
    (clock : Nat → String) (pageId : String) (s : S) (hs : stampsOk clock s) :
    stampsOk clock (completeModule md fuel clock pageId s) ∧
    stampEvolution clock s (completeModule md fuel clock pageId s) := by
  unfold completeModule
  cases hroot : getModuleRoot md fuel pageId with
  | ok moduleId =>
    by_cases hb1 : optTruthy
      (getRecord s.progress "modules" (jsKey moduleId)).started_at = true
    · simp only [if_pos hb1]
      by_cases hb2 : optTruthy
        (getRecord s.progress "modules" (jsKey moduleId)).completed_at = true
      · simp only [if_pos hb2]
        refine stampedWrite_evolve clock s _ "modules" (jsKey moduleId) _
          (le_refl _) rfl ?_ ?_ hs
        · intro t ht
          cases ht
        · intro t ht
          cases ht
      · simp only [if_neg hb2]
        cases hgp : getModuleProgress md fuel s.progress pageId with
        | ok v =>
          by_cases hv : 100 ≤ v
          · simp only [if_pos hv]
            refine stampedWrite_evolve clock s _ "modules" (jsKey moduleId) _
              (Nat.le_succ _) rfl ?_ ?_
              (stampsOk_mono clock s.progress s.tick (s.tick + 1)
                s.writes s.writes hs (by omega))
            · intro t ht
              simp at ht
            · intro t ht
              simp only [] at ht
              injection ht with hh
              exact ⟨s.tick, le_refl _, by show s.tick < s.tick + 1; omega,
                hh.symm⟩
          · simp only [if_neg hv]
            refine stampedWrite_evolve clock s _ "modules" (jsKey moduleId) _
              (le_refl _) rfl ?_ ?_ hs
            · intro t ht
              cases ht
            · intro t ht
              cases ht
        | typeError => exact ⟨hs, stampEvolution_refl clock s⟩
        | fuelOut => exact ⟨hs, stampEvolution_refl clock s⟩
    · simp only [if_neg hb1]
      by_cases hb2 : optTruthy
        (getRecord s.progress "modules" (jsKey moduleId)).completed_at = true
      · simp only [if_pos hb2]
        refine stampedWrite_evolve clock s _ "modules" (jsKey moduleId) _
          (Nat.le_succ _) rfl ?_ ?_
          (stampsOk_mono clock s.progress s.tick (s.tick + 1)
            s.writes s.writes hs (by omega))
        · intro t ht
          injection ht with hh
          exact ⟨s.tick, by show s.tick < s.tick + 1; omega, hh.symm⟩
        · intro t ht
          cases ht
      · simp only [if_neg hb2]
        cases hgp : getModuleProgress md fuel
            ({ s with tick := s.tick + 1 } : S).progress pageId with
        | ok v =>
          by_cases hv : 100 ≤ v
          · simp only [if_pos hv]
            refine stampedWrite_evolve clock s _ "modules" (jsKey moduleId) _
              (show s.tick ≤ s.tick + 1 + 1 by omega) rfl ?_ ?_
              (stampsOk_mono clock s.progress s.tick (s.tick + 1 + 1)
                s.writes s.writes hs (by omega))
            · intro t ht
              simp only [] at ht
              injection ht with hh
              exact ⟨s.tick, by show s.tick < s.tick + 1 + 1; omega, hh.symm⟩
            · intro t ht
              simp only [] at ht
              injection ht with hh
              exact ⟨s.tick + 1, by omega,
                by show s.tick + 1 < s.tick + 1 + 1; omega, hh.symm⟩
          · simp only [if_neg hv]
            refine stampedWrite_evolve clock s _ "modules" (jsKey moduleId) _
              (Nat.le_succ _) rfl ?_ ?_
              (stampsOk_mono clock s.progress s.tick (s.tick + 1)
                s.writes s.writes hs (by omega))
            · intro t ht
              injection ht with hh
              exact ⟨s.tick, by show s.tick < s.tick + 1; omega, hh.symm⟩
            · intro t ht
              cases ht
        | typeError => exact skipStep_evolve clock s 1 hs
        | fuelOut => exact skipStep_evolve clock s 1 hs
  | typeError => exact ⟨hs, stampEvolution_refl clock s⟩
  | fuelOut => exact ⟨hs, stampEvolution_refl clock s⟩

theorem completePage_evolve (md : ModuleData) (td : TrackData) (fuel : Nat)
    (clock : Nat → String) (pageId : String) (s : S) (hs : stampsOk clock s) :
    stampsOk clock (completePage md td fuel clock pageId s) ∧
    stampEvolution clock s (completePage md td fuel clock pageId s) := by
  unfold completePage
  cases hlt : getLearningType md td fuel pageId with
  | ok lt =>
    by_cases hcond : lt ≠ some "units" ∧ lt ≠ some "modules"
    · simp only [if_pos hcond]
      exact ⟨hs, stampEvolution_refl clock s⟩
    · simp only [if_neg hcond]
      obtain ⟨h1, h2⟩ := stampedWrite_evolve clock s
        ({ s with tick := s.tick + 1 }) "units" pageId
        { completed_at := some (clock s.tick) } (Nat.le_succ _) rfl
        (fun t ht => by cases ht)
        (fun t ht => by
          injection ht with hh
          exact ⟨s.tick, le_refl _, by show s.tick < s.tick + 1; omega, hh.symm⟩)
        (stampsOk_mono clock s.progress s.tick (s.tick + 1) s.writes s.writes hs
          (by omega))
      obtain ⟨h3, h4⟩ := completeModule_evolve md fuel clock pageId _ h1
      obtain ⟨h5, h6⟩ := completeTracks_evolve td clock _ h3
      obtain ⟨h7, h8⟩ := awardAchievements_evolve clock _ h5
      exact ⟨h7, stampEvolution_trans clock h2 (stampEvolution_trans clock h4
        (stampEvolution_trans clock h6 h8))⟩
  | typeError => exact ⟨hs, stampEvolution_refl clock s⟩
  | fuelOut => exact ⟨hs, stampEvolution_refl clock s⟩

theorem runOp_evolve (md : ModuleData) (td : TrackData) (fuel : Nat)
    (clock : Nat → String) (o : Op) (s : S) (hs : stampsOk clock s) :
    stampsOk clock (runOp md td fuel clock o s) ∧
    stampEvolution clock s (runOp md td fuel clock o s) := by
  cases o with
  | start p => exact startPage_evolve md td fuel clock p s hs
  | complete p => exact completePage_evolve md td fuel clock p s hs

theorem runOps_evolve (md : ModuleData) (td : TrackData) (fuel : Nat)
    (clock : Nat → String) :
    ∀ (ops : List Op) (s : S), stampsOk clock s →
      stampsOk clock (runOps md td fuel clock ops s) ∧
      stampEvolution clock s (runOps md td fuel clock ops s) := by
  intro ops
  induction ops with
  | nil => intro s hs; exact ⟨hs, stampEvolution_refl clock s⟩
  | cons o ops ih =>
    intro s hs
    rw [runOps]
    obtain ⟨h1, h2⟩ := runOp_evolve md td fuel clock o s hs
    obtain ⟨h3, h4⟩ := ih _ h1
    exact ⟨h3, stampEvolution_trans clock h2 h4⟩

/-- C4 amended: under a nondecreasing wall clock, over every sequence of the
public write operations, a completed_at once set is never cleared and never
moved lexicographically earlier, and a started_at once set is never cleared —
but, as the counterexample shows, a started_at can be overwritten by a later
start, because updateField merges fields unconditionally. -/
theorem C4_invariant_amended (md : ModuleData) (td : TrackData) (fuel : Nat)
    (clock : Nat → String) (ops : List Op) (s : S)
    (hclock : clockMono clock) (hs : stampsOk clock s) :
    stampsOk clock (runOps md td fuel clock ops s) ∧
    stampEvolution clock s (runOps md td fuel clock ops s) ∧
    stateMono s (runOps md td fuel clock ops s) := by
  obtain ⟨h1, h2⟩ := runOps_evolve md td fuel clock ops s hs
  exact ⟨h1, h2, stateMono_of clock s _ hclock hs h2⟩

/-- C4 amended, witness: the empty state under the constant clock satisfies
the premises; running a start and a completion of the unit `m/u` preserves
the invariant. -/
theorem C4_invariant_amended_witness :
    stampsOk cClockT
      (runOps exCat exTracks 9 cClockT [Op.start "m/u", Op.complete "m/u"] initS) ∧
    stampEvolution cClockT initS
      (runOps exCat exTracks 9 cClockT [Op.start "m/u", Op.complete "m/u"] initS) ∧
    stateMono initS
      (runOps exCat exTracks 9 cClockT [Op.start "m/u", Op.complete "m/u"] initS) := by
  apply C4_invariant_amended
  · intro i j hij
    exact jsLtB_irrefl "T"
  · intro lt id
    constructor <;> intro t ht <;> simp [initS, getRecord, alGet] at ht

/-- C7 witness: with the local snapshot holding the completed unit `p1` and a
failing fetch, the trace replays `p1` through a remote PUT carrying its
completed_at, publishes nothing during the replay, and on the failure
publishes the local snapshot and still calls startPage. -/
theorem C7_replay_before_overwrite_witness :
    (∃ ch, Ev.remotePut "units" "p1" ch ∈ (replayEntries [] exLocal).2 ∧
      fieldsIncl { completed_at := some "T" } ch) ∧
    (∀ ps, Ev.publish ps ∉ (replayEntries [] exLocal).2) ∧
    ((initUserProgressDataT true true [] exLocal "p1" none).1 = exLocal ∧
      Ev.publish exLocal ∈ (initUserProgressDataT true true [] exLocal "p1" none).2 ∧
      Ev.startPageCalled "p1" ∈
        (initUserProgressDataT true true [] exLocal "p1" none).2) :=
  ⟨(C7_replay_before_overwrite [] exLocal "p1" none).2.1 "units"
      [("p1", { completed_at := some "T" })] "p1" { completed_at := some "T" } rfl rfl,
   (C7_replay_before_overwrite [] exLocal "p1" none).2.2.1,
   (C7_replay_before_overwrite [] exLocal "p1" none).2.2.2 rfl⟩

end Chef
